import Mathlib

/-!
Shallow embedding of the `patch` command of the `review` repository
(file `mozphab/commands/patch.py`), together with theorems checking the
repository's specification against it.

The embedding models:
  - the data returned by the review service (revisions, diffs, refs,
    commit attachments) as plain structures;
  - the collaborators (conduit client, VCS repository, prompt, config)
    as an environment `Env` of response values;
  - the run of `patch(repo, args)` as a pure function `patchRun` that
    produces an ordered trace of observable events plus an optional
    error, mirroring the control flow of the Python function;
  - `get_base_ref` and `check_revision_id` directly as Lean functions.
-/

namespace Review

/-- A typed reference inside a diff, `diff["fields"]["refs"][i]`:
a `type` (for example "base") and an `identifier`. -/
structure DiffRef where
  rtype : String
  identifier : String
deriving DecidableEq

/-- One commit attachment of a diff,
`diff["attachments"]["commits"]["commits"][i]`: author name and email. -/
structure DiffCommit where
  authorName : String
  authorEmail : String
deriving DecidableEq

/-- A diff as used by `patch.py`: `diff["id"]`, `diff["fields"]["refs"]`,
`diff["fields"]["dateCreated"]`, and the commit attachments list
`diff["attachments"]["commits"]["commits"]`. -/
structure Diff where
  id : Nat
  refs : List DiffRef
  dateCreated : Nat
  commits : List DiffCommit
deriving DecidableEq

/-- A revision as used by `patch.py`: `rev["id"]`, `rev["phid"]`,
`rev["fields"]["title"]`, `rev["fields"]["summary"]`,
`rev["fields"]["diffPHID"]`. -/
structure Revision where
  id : Nat
  phid : String
  title : String
  summary : String
  diffPHID : String
deriving DecidableEq

/-- `get_base_ref(diff)`: the identifier of the first entry of
`diff["fields"]["refs"]` whose type is "base", if any. -/
def get_base_ref (diff : Diff) : Option String :=
  (diff.refs.find? (fun r => r.rtype == "base")).map (fun r => r.identifier)

/-! ### The revision-id argument type, `check_revision_id` -/

/-- First code point of every run of ten decimal digits in the Unicode
Nd category (Unicode 15.0): the zero digit of each script's decimal
block, from ASCII and Arabic-Indic through the mathematical and
segmented digit blocks.  These are the characters the Python regex
class backslash-d matches in a str pattern, and the digits `int()`
parses. -/
def digitZeroPoints : List Nat :=
  [0x0030, 0x0660, 0x06F0, 0x07C0, 0x0966, 0x09E6, 0x0A66, 0x0AE6, 0x0B66,
   0x0BE6, 0x0C66, 0x0CE6, 0x0D66, 0x0DE6, 0x0E50, 0x0ED0, 0x0F20, 0x1040,
   0x1090, 0x17E0, 0x1810, 0x1946, 0x19D0, 0x1A80, 0x1A90, 0x1B50, 0x1BB0,
   0x1C40, 0x1C50, 0xA620, 0xA8D0, 0xA900, 0xA9D0, 0xA9F0, 0xAA50, 0xABF0,
   0xFF10, 0x104A0, 0x10D30, 0x11066, 0x110F0, 0x11136, 0x111D0, 0x112F0,
   0x11450, 0x114D0, 0x11650, 0x116C0, 0x11730, 0x118E0, 0x11950, 0x11C50,
   0x11D50, 0x11DA0, 0x11F50, 0x16A60, 0x16AC0, 0x16B50, 0x1D7CE, 0x1D7D8,
   0x1D7E2, 0x1D7EC, 0x1D7F6, 0x1E140, 0x1E2F0, 0x1E4F0, 0x1E950, 0x1FBF0]

/-- A Unicode decimal digit, as matched by the Python regex digit class
on a str pattern: any character of an Nd run of ten. -/
def isPyDigit (c : Char) : Bool :=
  digitZeroPoints.any fun z => decide (z ≤ c.toNat ∧ c.toNat < z + 10)

/-- The decimal value of a Unicode digit: its offset inside its run of
ten, as `int()` evaluates it. -/
def pyDigitVal (c : Char) : Nat :=
  match digitZeroPoints.find? (fun z => decide (z ≤ c.toNat ∧ c.toNat < z + 10)) with
  | some z => c.toNat - z
  | none => 0

/-- Value of a digit string, as Python `int` on a string of Unicode
decimal digits. -/
def digitsVal (cs : List Char) : Nat :=
  cs.foldl (fun a c => a * 10 + pyDigitVal c) 0

/-- Strip an expected literal character list from the front of the input,
returning the remainder on success. -/
def stripLit : List Char → List Char → Option (List Char)
  | [], cs => some cs
  | _ :: _, [] => none
  | l :: ls, c :: cs => if c = l then stripLit ls cs else none

/-- Strip the optional leading letter D of the first pattern. -/
def stripD (cs : List Char) : List Char :=
  if cs.head? = some 'D' then cs.tail else cs

/-- The first branch of `check_revision_id`: the anchored pattern
an optional letter D followed by one or more digits, then the
end-of-string anchor.  Digits are Unicode decimal digits, and the
dollar anchor of the Python pattern matches at the very end of the
string or just before one final newline, so a single trailing newline
is accepted.  Returns the numeric value of the digits on a match. -/
def matchDNum (cs : List Char) : Option Nat :=
  let cs1 := stripD cs
  let ds := cs1.takeWhile isPyDigit
  let rest := cs1.dropWhile isPyDigit
  if ds.isEmpty then none
  else if rest = [] ∨ rest = ['\n'] then some (digitsVal ds)
  else none

/-- The second branch of `check_revision_id`: the anchored pattern
http, an optional s, then colon-slash-slash, then one or more characters
other than slash, then slash, letter D, and one or more Unicode decimal
digits (the rest of the string is unconstrained - the pattern has no end
anchor).  Returns the value of the maximal digit run after the D. -/
def matchUrl (cs : List Char) : Option Nat :=
  match stripLit ['h', 't', 't', 'p'] cs with
  | none => none
  | some cs1 =>
    let cs2 := if cs1.head? = some 's' then cs1.tail else cs1
    match stripLit [':', '/', '/'] cs2 with
    | none => none
    | some cs3 =>
      let host := cs3.takeWhile (fun c => c ≠ '/')
      let rest := cs3.dropWhile (fun c => c ≠ '/')
      if host.isEmpty then none
      else if rest.head? = some '/' ∧ rest.tail.head? = some 'D' then
        let ds := rest.tail.tail.takeWhile isPyDigit
        if ds.isEmpty then none else some (digitsVal ds)
      else none

/-- `check_revision_id(value)`: accepts a bare or D-prefixed number, or a
review-service URL whose path starts with D and a number; everything else
is rejected (the Python raises an argument-type error, modelled as
`none`). -/
def check_revision_id (s : String) : Option Nat :=
  match matchDNum s.data with
  | some n => some n
  | none => matchUrl s.data

/-! ### Arguments, configuration, environment -/

/-- The command-line arguments of the patch subcommand that the `patch`
function reads.  `apply_to` is `none` when the flag was not given (the
Python then falls back to `config.apply_patch_to`). -/
structure Args where
  revision_id : Nat
  raw : Bool
  no_commit : Bool
  apply_to : Option String
  no_parents : Bool
  no_children : Bool
  no_dependencies : Bool
  include_abandoned : Bool
  yes : Bool
deriving DecidableEq

/-- The two configuration values `patch` reads: the persisted
always-accept-children preference and the default apply target. -/
structure Config where
  always_full_stack : Bool
  apply_patch_to : String
deriving DecidableEq

/-- The fatal errors `patch` can raise, one constructor per raise site,
carrying exactly the data interpolated into the message format string.
`internalError` models a Python KeyError or IndexError on malformed
service data (not an `Error` of the program). -/
inductive PatchError where
  | conduitFailed
  | vcsMismatch
  | uncommittedChanges (isMercurial : Bool)
  | revisionNotFound
  | nonLinearParents (revisionId : Nat)
  | missingCommitInfo (revId : Nat)
  | baseNotFoundInDiff
  | unknownRevision (node : String) (wasBase : Bool)
  | patchFailed
  | internalError
deriving DecidableEq

/-- The revision id interpolated into the message of a fatal error, read
off the format strings in `patch.py`: the non-linear-parents message and
the missing-commit-information message name a revision (as D followed by
the id); every other message, in particular "Patch failed to apply",
contains no revision id. -/
def errorMentionsRevisionId : PatchError → Option Nat
  | .nonLinearParents i => some i
  | .missingCommitInfo i => some i
  | _ => none

/-- Modelled from the spec: `prepare_body` (a helper outside this file of
the repository) composes the commit message body from title, summary,
revision id, review-service URL, and the depends-on link to the previous
revision in the stack.  The embedding keeps the five arguments as passed
by `patch`. -/
structure CommitBody where
  title : String
  summary : String
  revId : Nat
  phabUrl : String
  dependsOn : Option Nat
deriving DecidableEq

/-- The call `prepare_body(title, summary, id, phab_url, depends_on)` as
made by `patch`, modelled from the spec as recording its arguments. -/
def prepare_body (title summary : String) (revId : Nat) (phabUrl : String)
    (dependsOn : Option Nat) : CommitBody :=
  ⟨title, summary, revId, phabUrl, dependsOn⟩

/-- The observable events of one run, in program order: Working Tree
Guard checks, the children prompt and config write, network fetches of
diff data, the branch setup `repo.before_patch`, the three per-revision
application effects, and the progress messages. -/
inductive Event where
  | checkVcs
  | checkClean
  | promptChildren (revisionId : Nat)
  | configWrite
  | getDiffs (diffPhids : List String)
  | getRawDiff (diffId : Nat)
  | beforePatch (base : Option String) (branch : Option String)
  | applyUncommitted (revId : Nat)
  | emitRaw (text : String)
  | commit (revId : Nat) (body : CommitBody) (author : String) (date : Nat)
  | infoApplied (revId : Nat)
  | warnNonLinearChildren (revisionId : Nat)
  | warnApplied (revId : Nat)
deriving DecidableEq

/-- The collaborators of one run, as response values.  The conduit
client, repository object, prompt and config store are out of scope of
the source file; each field is the answer the corresponding call would
return during this run.  Per the spec, `ancestorPhids` and
`successorPhids` list the handles nearest-first, and `revisionsByPhids`
returns the revisions of the requested handles in request order; an
`Except.error` models a raised NonLinearException
(`NotFoundError` for `checkNode`). -/
structure Env where
  conduitCheck : Bool
  vcsOk : Bool
  worktreeClean : Bool
  isMercurial : Bool
  phabUrl : String
  revisionsById : List Revision
  ancestorPhids : Except Unit (List String)
  successorPhids : Bool → Except Unit (List String)
  promptChoice : String
  revisionsByPhids : List String → List Revision
  diffs : String → Option Diff
  rawDiff : Nat → String
  checkNode : String → Except String String
  applyPatchOk : Nat → Bool

/-- The outcome of a run: the ordered event trace, the fatal error if
one was raised, and the final value of the persisted
always-accept-children preference. -/
structure RunOut where
  events : List Event
  error : Option PatchError
  always_full_stack : Bool
deriving DecidableEq

/-! ### The stages of `patch` -/

/-- Lines 104-116 of `patch.py`: unless the yes flag is set, when
children were found and the persisted preference is off, prompt; answer
Always keeps the children, turns the preference on and writes the
config; answer No drops the children; any other answer keeps them. -/
def promptStage (args : Args) (cfg : Config) (choice : String)
    (revisionId : Nat) (children : List String) :
    List String × Config × List Event :=
  if args.yes then (children, cfg, [])
  else if children ≠ [] ∧ cfg.always_full_stack = false then
    if choice = "Always" then
      (children, { cfg with always_full_stack := true },
        [.promptChildren revisionId, .configWrite])
    else if choice = "No" then ([], cfg, [.promptChildren revisionId])
    else (children, cfg, [.promptChildren revisionId])
  else (children, cfg, [])

/-- Lines 118-126 of `patch.py`: when parents were resolved, append
their revisions to the fetched list and reverse the whole list; when
children were kept, append their revisions at the end. -/
def buildStack (revisions0 parentRevs childRevs : List Revision)
    (hasParents hasChildren : Bool) : List Revision :=
  let r1 := if hasParents then (revisions0 ++ parentRevs).reverse else revisions0
  if hasChildren then r1 ++ childRevs else r1

/-- Lines 139-146 of `patch.py`: in commit-creating mode, the first
revision of the stack whose diff has no commit attachment aborts the run
with a missing-commit-information error. -/
def checkCommits (env : Env) : List Revision → Option PatchError
  | [] => none
  | rev :: rest =>
    match env.diffs rev.diffPHID with
    | none => some .internalError
    | some diff =>
      if diff.commits.isEmpty then some (.missingCommitInfo rev.id)
      else checkCommits env rest

/-- Lines 183-219 of `patch.py`: the sequential application loop.  For
each revision, in order: compose the body (depends-on is the previous
revision's id, `none` for the first), download the raw diff, then apply
it uncommitted (no-commit mode), print it (raw mode) or commit it with
the author of the diff's first commit attachment (commit mode, where a
failed apply aborts with a patch-failed error); finally report progress
for every revision but the last unless in raw mode. -/
def applyLoop (env : Env) (args : Args) (lastId : Nat) :
    Option Nat → List Revision → List Event × Option PatchError
  | _, [] => ([], none)
  | parent, rev :: rest =>
    match env.diffs rev.diffPHID with
    | none => ([], some .internalError)
    | some diff =>
      let raw := env.rawDiff diff.id
      let body := prepare_body rev.title rev.summary rev.id env.phabUrl parent
      let tailEv : List Event :=
        if args.raw = false ∧ rev.id ≠ lastId then [.infoApplied rev.id] else []
      if args.no_commit then
        let next := applyLoop env args lastId (some rev.id) rest
        (.getRawDiff diff.id :: .applyUncommitted rev.id :: (tailEv ++ next.1), next.2)
      else if args.raw then
        let next := applyLoop env args lastId (some rev.id) rest
        (.getRawDiff diff.id :: .emitRaw raw :: (tailEv ++ next.1), next.2)
      else
        match diff.commits with
        | [] => ([.getRawDiff diff.id], some .internalError)
        | c :: _ =>
          let author := c.authorName ++ " <" ++ c.authorEmail ++ ">"
          if env.applyPatchOk rev.id then
            let next := applyLoop env args lastId (some rev.id) rest
            (.getRawDiff diff.id ::
              .commit rev.id body author diff.dateCreated :: (tailEv ++ next.1),
              next.2)
          else ([.getRawDiff diff.id], some .patchFailed)

/-- The run of `patch(repo, args)` from the root-revision fetch onward
(after the conduit check, the Guard checks and the no-dependencies
aliasing): root fetch; ancestor walk (NonLinear is fatal); descendant
walk (NonLinear warns and drops children); the children prompt; stack
assembly; diff fetch; the commit-metadata check; base-point selection
and `before_patch` unless raw; the application loop; the final applied
message unless raw.  `pre` is the trace of the Guard checks already
performed. -/
def patchMain (env : Env) (args : Args) (cfg0 : Config) (pre : List Event) :
    RunOut :=
  match env.revisionsById with
    | [] => ⟨pre, some .revisionNotFound, cfg0.always_full_stack⟩
    | _ :: _ =>
      let revisions0 := env.revisionsById
      match (if args.no_parents then Except.ok [] else env.ancestorPhids) with
      | .error _ =>
        ⟨pre, some (.nonLinearParents args.revision_id), cfg0.always_full_stack⟩
      | .ok parents =>
        let childrenFetch : List String × List Event :=
          match (if args.no_children then Except.ok []
                 else env.successorPhids args.include_abandoned) with
          | .error _ => ([], [.warnNonLinearChildren args.revision_id])
          | .ok cs => (cs, [])
        let prompted :=
          promptStage args cfg0 env.promptChoice args.revision_id childrenFetch.1
        let children := prompted.1
        let cfg := prompted.2.1
        let parentRevs := env.revisionsByPhids parents
        let childRevs := env.revisionsByPhids children
        let revisions := buildStack revisions0 parentRevs childRevs
          (!parents.isEmpty) (!children.isEmpty)
        let eventsSoFar := pre ++ childrenFetch.2 ++ prompted.2.2 ++
          [Event.getDiffs (revisions.map (fun r => r.diffPHID))]
        match (if args.no_commit = false ∧ args.raw = false
               then checkCommits env revisions else none) with
        | some e => ⟨eventsSoFar, some e, cfg.always_full_stack⟩
        | none =>
          match revisions.getLast? with
          | none => ⟨eventsSoFar, some .internalError, cfg.always_full_stack⟩
          | some lastRev =>
            let targetId := lastRev.id
            if args.raw then
              let looped := applyLoop env args targetId none revisions
              ⟨eventsSoFar ++ looped.1, looped.2, cfg.always_full_stack⟩
            else
              let applyTo := args.apply_to.getD cfg.apply_patch_to
              let baseRes : Except PatchError (Option String) :=
                if applyTo = "base" then
                  match revisions.head? with
                  | none => .error .internalError
                  | some first =>
                    match env.diffs first.diffPHID with
                    | none => .error .internalError
                    | some d =>
                      match get_base_ref d with
                      | none => .error .baseNotFoundInDiff
                      | some ident => .ok (some ident)
                else if applyTo ≠ "here" then .ok (some applyTo)
                else .ok none
              match baseRes with
              | .error e => ⟨eventsSoFar, some e, cfg.always_full_stack⟩
              | .ok baseNode0 =>
                let nodeRes : Except PatchError (Option String) :=
                  if applyTo ≠ "here" then
                    match baseNode0 with
                    | none => .error .internalError
                    | some b =>
                      match env.checkNode b with
                      | .error _ => .error (.unknownRevision b (applyTo = "base"))
                      | .ok node => .ok (some node)
                  else .ok baseNode0
                match nodeRes with
                | .error e => ⟨eventsSoFar, some e, cfg.always_full_stack⟩
                | .ok baseNode =>
                  let branchName : Option String :=
                    if args.no_commit then none
                    else some ("phab-D" ++ toString targetId)
                  let evs1 := eventsSoFar ++ [Event.beforePatch baseNode branchName]
                  let looped := applyLoop env args targetId none revisions
                  match looped.2 with
                  | some e => ⟨evs1 ++ looped.1, some e, cfg.always_full_stack⟩
                  | none =>
                    ⟨evs1 ++ looped.1 ++ [Event.warnApplied targetId], none,
                      cfg.always_full_stack⟩

/-- The run of `patch(repo, args)`, following the Python control flow
line by line: conduit check; Guard checks unless raw (VCS compatibility,
then a clean worktree); the no-dependencies aliasing onto no-parents and
no-children; then the resolution and application pipeline of
`patchMain`. -/
def patchRun (env : Env) (args0 : Args) (cfg0 : Config) : RunOut :=
  if env.conduitCheck = false then
    ⟨[], some .conduitFailed, cfg0.always_full_stack⟩
  else if args0.raw = false ∧ env.vcsOk = false then
    ⟨[.checkVcs], some .vcsMismatch, cfg0.always_full_stack⟩
  else if args0.raw = false ∧ env.worktreeClean = false then
    ⟨[.checkVcs, .checkClean], some (.uncommittedChanges env.isMercurial),
      cfg0.always_full_stack⟩
  else
    patchMain env
      (if args0.no_dependencies then
        { args0 with no_parents := true, no_children := true } else args0)
      cfg0
      (if args0.raw then [] else [.checkVcs, .checkClean])

/-! ### Trace projections -/

/-- Revision ids of the commits created during the run, in order. -/
def commitIds (evs : List Event) : List Nat :=
  evs.filterMap fun e => match e with | .commit i _ _ _ => some i | _ => none

/-- Bodies of the commits created during the run, in order. -/
def commitBodies (evs : List Event) : List CommitBody :=
  evs.filterMap fun e => match e with | .commit _ b _ _ => some b | _ => none

/-- Raw diff texts printed during the run (raw mode), in order. -/
def rawTexts (evs : List Event) : List String :=
  evs.filterMap fun e => match e with | .emitRaw t => some t | _ => none

/-- Diff ids whose raw text was downloaded during the run, in order. -/
def rawFetchIds (evs : List Event) : List Nat :=
  evs.filterMap fun e => match e with | .getRawDiff i => some i | _ => none

/-- Revision ids applied uncommitted during the run (no-commit mode). -/
def uncommittedIds (evs : List Event) : List Nat :=
  evs.filterMap fun e => match e with | .applyUncommitted i => some i | _ => none

/-! ### Evaluation lemmas for the trace projections -/

@[simp] theorem commitIds_nil : commitIds [] = [] := rfl

@[simp] theorem commitIds_append (a b : List Event) :
    commitIds (a ++ b) = commitIds a ++ commitIds b :=
  List.filterMap_append a b _

@[simp] theorem commitIds_cons (e : Event) (l : List Event) :
    commitIds (e :: l) =
      match e with
      | .commit i _ _ _ => i :: commitIds l
      | _ => commitIds l := by
  cases e <;> rfl

@[simp] theorem commitBodies_nil : commitBodies [] = [] := rfl

@[simp] theorem commitBodies_append (a b : List Event) :
    commitBodies (a ++ b) = commitBodies a ++ commitBodies b :=
  List.filterMap_append a b _

@[simp] theorem commitBodies_cons (e : Event) (l : List Event) :
    commitBodies (e :: l) =
      match e with
      | .commit _ b _ _ => b :: commitBodies l
      | _ => commitBodies l := by
  cases e <;> rfl

@[simp] theorem rawTexts_nil : rawTexts [] = [] := rfl

@[simp] theorem rawTexts_append (a b : List Event) :
    rawTexts (a ++ b) = rawTexts a ++ rawTexts b :=
  List.filterMap_append a b _

@[simp] theorem rawTexts_cons (e : Event) (l : List Event) :
    rawTexts (e :: l) =
      match e with
      | .emitRaw t => t :: rawTexts l
      | _ => rawTexts l := by
  cases e <;> rfl

@[simp] theorem rawFetchIds_nil : rawFetchIds [] = [] := rfl

@[simp] theorem rawFetchIds_append (a b : List Event) :
    rawFetchIds (a ++ b) = rawFetchIds a ++ rawFetchIds b :=
  List.filterMap_append a b _

@[simp] theorem rawFetchIds_cons (e : Event) (l : List Event) :
    rawFetchIds (e :: l) =
      match e with
      | .getRawDiff i => i :: rawFetchIds l
      | _ => rawFetchIds l := by
  cases e <;> rfl

@[simp] theorem uncommittedIds_nil : uncommittedIds [] = [] := rfl

@[simp] theorem uncommittedIds_append (a b : List Event) :
    uncommittedIds (a ++ b) = uncommittedIds a ++ uncommittedIds b :=
  List.filterMap_append a b _

@[simp] theorem uncommittedIds_cons (e : Event) (l : List Event) :
    uncommittedIds (e :: l) =
      match e with
      | .applyUncommitted i => i :: uncommittedIds l
      | _ => uncommittedIds l := by
  cases e <;> rfl

/-! ### Helper lemmas about the application loop and stack assembly -/

/-- The commit bodies `patch` composes for a stack, in order: each body
links to the previous revision of the stack, the first to the incoming
parent value. -/
def expectedBodies (purl : String) : Option Nat → List Revision → List CommitBody
  | _, [] => []
  | parent, r :: rest =>
    prepare_body r.title r.summary r.id purl parent ::
      expectedBodies purl (some r.id) rest

theorem expectedBodies_dependsOn (purl : String) :
    ∀ (revs : List Revision) (parent : Option Nat) (k : Nat) (b : CommitBody),
      (expectedBodies purl parent revs).get? k = some b →
      b.dependsOn = if k = 0 then parent else (revs.get? (k - 1)).map fun r => r.id := by
  intro revs
  induction revs with
  | nil => intro parent k b hb; simp [expectedBodies] at hb
  | cons r rest ih =>
    intro parent k b hb
    cases k with
    | zero =>
      simp only [expectedBodies, List.get?_cons_zero, Option.some.injEq] at hb
      simp [← hb, prepare_body]
    | succ k =>
      simp only [expectedBodies, List.get?_cons_succ] at hb
      have := ih (some r.id) k b hb
      cases k with
      | zero => simpa using this
      | succ m => simpa using this

theorem expectedBodies_length (purl : String) :
    ∀ (revs : List Revision) (parent : Option Nat),
      (expectedBodies purl parent revs).length = revs.length := by
  intro revs
  induction revs with
  | nil => intro parent; simp [expectedBodies]
  | cons r rest ih => intro parent; simp [expectedBodies, ih]

/-- In commit-creating mode, when every revision of the stack has a diff
with commit metadata and every apply succeeds, the loop finishes without
error, commits exactly the stack in order with the composed bodies, and
downloads exactly the stack's diffs in order. -/
theorem applyLoop_commit_ok (env : Env) (args : Args) (lastId : Nat)
    (hnc : args.no_commit = false) (hraw : args.raw = false)
    (dOf : Revision → Diff) :
    ∀ (revs : List Revision) (parent : Option Nat),
      (∀ r ∈ revs, env.diffs r.diffPHID = some (dOf r)) →
      (∀ r ∈ revs, (dOf r).commits ≠ []) →
      (∀ r ∈ revs, env.applyPatchOk r.id = true) →
      (applyLoop env args lastId parent revs).2 = none ∧
      commitIds (applyLoop env args lastId parent revs).1 =
        revs.map (fun r => r.id) ∧
      commitBodies (applyLoop env args lastId parent revs).1 =
        expectedBodies env.phabUrl parent revs ∧
      rawFetchIds (applyLoop env args lastId parent revs).1 =
        revs.map (fun r => (dOf r).id) := by
  intro revs
  induction revs with
  | nil =>
    intro parent _ _ _
    simp [applyLoop, expectedBodies]
  | cons rev rest ih =>
    intro parent hd hc hok
    have hdr := hd rev (by simp)
    have hcr := hc rev (by simp)
    have hokr := hok rev (by simp)
    have ihr := ih (some rev.id) (fun r hr => hd r (by simp [hr]))
      (fun r hr => hc r (by simp [hr])) (fun r hr => hok r (by simp [hr]))
    obtain ⟨ih1, ih2, ih3, ih4⟩ := ihr
    cases hcom : (dOf rev).commits with
    | nil => exact absurd hcom hcr
    | cons c cr =>
      simp only [applyLoop, hdr, hnc, hraw, hcom, hokr, Bool.false_eq_true,
        if_false, if_true, expectedBodies]
      by_cases ht : rev.id ≠ lastId
      · simp [ht, ih1, ih2, ih3, ih4, expectedBodies]
      · simp [ht, ih1, ih2, ih3, ih4, expectedBodies]

/-- In commit-creating mode, when the stack splits as a prefix that
applies cleanly, then a revision whose apply fails, the loop stops with
the patch-failed error: exactly the prefix is committed, the failing
revision's diff was downloaded, and nothing after it is touched. -/
theorem applyLoop_commit_fail (env : Env) (args : Args) (lastId : Nat)
    (hnc : args.no_commit = false) (hraw : args.raw = false)
    (dOf : Revision → Diff) :
    ∀ (pre : List Revision) (bad : Revision) (rest : List Revision)
      (parent : Option Nat),
      (∀ r ∈ pre ++ [bad], env.diffs r.diffPHID = some (dOf r)) →
      (∀ r ∈ pre ++ [bad], (dOf r).commits ≠ []) →
      (∀ r ∈ pre, env.applyPatchOk r.id = true) →
      env.applyPatchOk bad.id = false →
      (applyLoop env args lastId parent (pre ++ bad :: rest)).2 =
        some .patchFailed ∧
      commitIds (applyLoop env args lastId parent (pre ++ bad :: rest)).1 =
        pre.map (fun r => r.id) ∧
      rawFetchIds (applyLoop env args lastId parent (pre ++ bad :: rest)).1 =
        (pre ++ [bad]).map (fun r => (dOf r).id) := by
  intro pre
  induction pre with
  | nil =>
    intro bad rest parent hd hc _ hbad
    have hdb := hd bad (by simp)
    have hcb := hc bad (by simp)
    cases hcom : (dOf bad).commits with
    | nil => exact absurd hcom hcb
    | cons c cr =>
      simp [applyLoop, hdb, hnc, hraw, hcom, hbad]
  | cons r pre ih =>
    intro bad rest parent hd hc hok hbad
    have hdr := hd r (by simp)
    have hcr := hc r (by simp)
    have hokr := hok r (by simp)
    have ihr := ih bad rest (some r.id) (fun x hx => hd x (by simp at hx ⊢; tauto))
      (fun x hx => hc x (by simp at hx ⊢; tauto))
      (fun x hx => hok x (by simp [hx])) hbad
    obtain ⟨ih1, ih2, ih3⟩ := ihr
    cases hcom : (dOf r).commits with
    | nil => exact absurd hcom hcr
    | cons c cr =>
      simp only [List.cons_append, applyLoop, hdr, hnc, hraw, hcom, hokr,
        Bool.false_eq_true, if_false, if_true]
      by_cases ht : r.id ≠ lastId
      · simp [ht, ih1, ih2, ih3]
      · simp [ht, ih1, ih2, ih3]

/-- In raw mode (without the no-commit flag), the loop finishes without
error, prints exactly the stack's raw diff texts in order, and performs
no working-tree action and no progress report. -/
theorem applyLoop_raw (env : Env) (args : Args) (lastId : Nat)
    (hraw : args.raw = true) (hnc : args.no_commit = false)
    (dOf : Revision → Diff) :
    ∀ (revs : List Revision) (parent : Option Nat),
      (∀ r ∈ revs, env.diffs r.diffPHID = some (dOf r)) →
      (applyLoop env args lastId parent revs).2 = none ∧
      rawTexts (applyLoop env args lastId parent revs).1 =
        revs.map (fun r => env.rawDiff (dOf r).id) ∧
      (∀ i, Event.applyUncommitted i ∉ (applyLoop env args lastId parent revs).1) ∧
      (∀ i b a dt, Event.commit i b a dt ∉ (applyLoop env args lastId parent revs).1) ∧
      (∀ i, Event.infoApplied i ∉ (applyLoop env args lastId parent revs).1) := by
  intro revs
  induction revs with
  | nil => intro parent _; simp [applyLoop]
  | cons rev rest ih =>
    intro parent hd
    have hdr := hd rev (by simp)
    have ihr := ih (some rev.id) (fun r hr => hd r (by simp [hr]))
    obtain ⟨ih1, ih2, ih3, ih4, ih5⟩ := ihr
    simp only [applyLoop, hdr, hnc, hraw, Bool.false_eq_true, if_false, if_true,
      ne_eq, false_and]
    simp [ih1, ih2, ih3, ih4, ih5]

/-- In no-commit mode, when every revision's diff is available the loop
finishes without error and applies exactly the stack, in order,
uncommitted. -/
theorem applyLoop_nocommit (env : Env) (args : Args) (lastId : Nat)
    (hnc : args.no_commit = true) (dOf : Revision → Diff) :
    ∀ (revs : List Revision) (parent : Option Nat),
      (∀ r ∈ revs, env.diffs r.diffPHID = some (dOf r)) →
      (applyLoop env args lastId parent revs).2 = none ∧
      uncommittedIds (applyLoop env args lastId parent revs).1 =
        revs.map (fun r => r.id) := by
  intro revs
  induction revs with
  | nil => intro parent _; simp [applyLoop]
  | cons rev rest ih =>
    intro parent hd
    have hdr := hd rev (by simp)
    have ihr := ih (some rev.id) (fun r hr => hd r (by simp [hr]))
    obtain ⟨ih1, ih2⟩ := ihr
    simp only [applyLoop, hdr, hnc, if_true]
    by_cases ht : args.raw = false ∧ rev.id ≠ lastId
    · simp [ht, ih1, ih2]
    · simp [ht, ih1, ih2]

/-- Every event the loop can produce is a per-revision application
event: a raw-diff download, an uncommitted apply, a raw print, a commit,
or a progress report. -/
theorem applyLoop_events_shape (env : Env) (args : Args) (lastId : Nat) :
    ∀ (revs : List Revision) (parent : Option Nat) (e : Event),
      e ∈ (applyLoop env args lastId parent revs).1 →
      (∃ i, e = .getRawDiff i) ∨ (∃ i, e = .applyUncommitted i) ∨
      (∃ t, e = .emitRaw t) ∨ (∃ i b a dt, e = .commit i b a dt) ∨
      (∃ i, e = .infoApplied i) := by
  intro revs
  induction revs with
  | nil => intro parent e he; simp [applyLoop] at he
  | cons rev rest ih =>
    intro parent e he
    cases hdr : env.diffs rev.diffPHID with
    | none => simp [applyLoop, hdr] at he
    | some diff =>
      have tailCase : ∀ (p : Prop) [Decidable p] (i : Nat),
          e ∈ (if p then [Event.infoApplied i] else []) →
          ∃ j, e = Event.infoApplied j := by
        intro p hp i h
        by_cases ht : p
        · rw [if_pos ht] at h
          exact ⟨i, List.mem_singleton.mp h⟩
        · rw [if_neg ht] at h
          exact absurd h (List.not_mem_nil e)
      cases hnc : args.no_commit with
      | true =>
        simp only [applyLoop, hdr, hnc, if_true] at he
        rcases List.mem_cons.mp he with h | he2
        · exact Or.inl ⟨_, h⟩
        rcases List.mem_cons.mp he2 with h | he3
        · exact Or.inr (Or.inl ⟨_, h⟩)
        rcases List.mem_append.mp he3 with h | h
        · exact Or.inr (Or.inr (Or.inr (Or.inr (tailCase _ _ h))))
        · exact ih (some rev.id) e h
      | false =>
        cases hraw : args.raw with
        | true =>
          simp only [applyLoop, hdr, hnc, hraw, Bool.false_eq_true, if_false,
            if_true] at he
          rcases List.mem_cons.mp he with h | he2
          · exact Or.inl ⟨_, h⟩
          rcases List.mem_cons.mp he2 with h | he3
          · exact Or.inr (Or.inr (Or.inl ⟨_, h⟩))
          rcases List.mem_append.mp he3 with h | h
          · exact Or.inr (Or.inr (Or.inr (Or.inr (tailCase _ _ h))))
          · exact ih (some rev.id) e h
        | false =>
          cases hcom : diff.commits with
          | nil =>
            simp only [applyLoop, hdr, hnc, hraw, hcom, Bool.false_eq_true,
              if_false] at he
            exact Or.inl ⟨_, List.mem_singleton.mp he⟩
          | cons c cr =>
            cases hok : env.applyPatchOk rev.id with
            | true =>
              simp only [applyLoop, hdr, hnc, hraw, hcom, hok,
                Bool.false_eq_true, if_false, if_true] at he
              rcases List.mem_cons.mp he with h | he2
              · exact Or.inl ⟨_, h⟩
              rcases List.mem_cons.mp he2 with h | he3
              · exact Or.inr (Or.inr (Or.inr (Or.inl ⟨_, _, _, _, h⟩)))
              rcases List.mem_append.mp he3 with h | h
              · exact Or.inr (Or.inr (Or.inr (Or.inr (tailCase _ _ h))))
              · exact ih (some rev.id) e h
            | false =>
              simp only [applyLoop, hdr, hnc, hraw, hcom, hok,
                Bool.false_eq_true, if_false] at he
              exact Or.inl ⟨_, List.mem_singleton.mp he⟩

/-- The application loop never emits Guard, prompt, config, diff-fetch,
branch-setup, or warning events. -/
theorem applyLoop_no_control_events (env : Env) (args : Args) (lastId : Nat)
    (revs : List Revision) (parent : Option Nat) :
    Event.checkVcs ∉ (applyLoop env args lastId parent revs).1 ∧
    Event.checkClean ∉ (applyLoop env args lastId parent revs).1 ∧
    (∀ i, Event.promptChildren i ∉ (applyLoop env args lastId parent revs).1) ∧
    Event.configWrite ∉ (applyLoop env args lastId parent revs).1 ∧
    (∀ l, Event.getDiffs l ∉ (applyLoop env args lastId parent revs).1) ∧
    (∀ b br, Event.beforePatch b br ∉ (applyLoop env args lastId parent revs).1) ∧
    (∀ i, Event.warnNonLinearChildren i ∉ (applyLoop env args lastId parent revs).1) ∧
    (∀ i, Event.warnApplied i ∉ (applyLoop env args lastId parent revs).1) := by
  have hs := applyLoop_events_shape env args lastId revs parent
  refine ⟨?_, ?_, ?_, ?_, ?_, ?_, ?_, ?_⟩
  · intro hmem
    rcases hs _ hmem with ⟨i, h⟩ | ⟨i, h⟩ | ⟨t, h⟩ | ⟨i, b2, a2, d2, h⟩ | ⟨i, h⟩ <;>
      simp at h
  · intro hmem
    rcases hs _ hmem with ⟨i, h⟩ | ⟨i, h⟩ | ⟨t, h⟩ | ⟨i, b2, a2, d2, h⟩ | ⟨i, h⟩ <;>
      simp at h
  · intro j hmem
    rcases hs _ hmem with ⟨i, h⟩ | ⟨i, h⟩ | ⟨t, h⟩ | ⟨i, b2, a2, d2, h⟩ | ⟨i, h⟩ <;>
      simp at h
  · intro hmem
    rcases hs _ hmem with ⟨i, h⟩ | ⟨i, h⟩ | ⟨t, h⟩ | ⟨i, b2, a2, d2, h⟩ | ⟨i, h⟩ <;>
      simp at h
  · intro l hmem
    rcases hs _ hmem with ⟨i, h⟩ | ⟨i, h⟩ | ⟨t, h⟩ | ⟨i, b2, a2, d2, h⟩ | ⟨i, h⟩ <;>
      simp at h
  · intro b br hmem
    rcases hs _ hmem with ⟨i, h⟩ | ⟨i, h⟩ | ⟨t, h⟩ | ⟨i, b2, a2, d2, h⟩ | ⟨i, h⟩ <;>
      simp at h
  · intro j hmem
    rcases hs _ hmem with ⟨i, h⟩ | ⟨i, h⟩ | ⟨t, h⟩ | ⟨i, b2, a2, d2, h⟩ | ⟨i, h⟩ <;>
      simp at h
  · intro j hmem
    rcases hs _ hmem with ⟨i, h⟩ | ⟨i, h⟩ | ⟨t, h⟩ | ⟨i, b2, a2, d2, h⟩ | ⟨i, h⟩ <;>
      simp at h

/-- In commit-creating mode, a stack whose diffs are all present with
commit metadata passes the pre-application metadata check. -/
theorem checkCommits_none (env : Env) :
    ∀ (revs : List Revision),
      (∀ r ∈ revs, ∃ d, env.diffs r.diffPHID = some d ∧ d.commits ≠ []) →
      checkCommits env revs = none := by
  intro revs
  induction revs with
  | nil => intro _; simp [checkCommits]
  | cons rev rest ih =>
    intro hall
    obtain ⟨d, hd, hc⟩ := hall rev (by simp)
    simp only [checkCommits, hd]
    rw [if_neg (by simpa using hc)]
    exact ih fun r hr => hall r (by simp [hr])

/-- In commit-creating mode, the metadata check stops at the first
revision of the stack whose diff has no commit attachment and names that
revision in the error. -/
theorem checkCommits_fail (env : Env) :
    ∀ (l1 : List Revision) (bad : Revision) (l2 : List Revision) (db : Diff),
      (∀ r ∈ l1, ∃ d, env.diffs r.diffPHID = some d ∧ d.commits ≠ []) →
      env.diffs bad.diffPHID = some db → db.commits = [] →
      checkCommits env (l1 ++ bad :: l2) =
        some (.missingCommitInfo bad.id) := by
  intro l1
  induction l1 with
  | nil =>
    intro bad l2 db _ hdb hempty
    simp [checkCommits, hdb, hempty]
  | cons r t ih =>
    intro bad l2 db hall hdb hempty
    obtain ⟨d, hd, hc⟩ := hall r (by simp)
    simp only [List.cons_append, checkCommits, hd]
    rw [if_neg (by simpa using hc)]
    exact ih bad l2 db (fun x hx => hall x (by simp [hx])) hdb hempty

/-- Assembling the stack from a single fetched root, the resolved
parents and the kept children: parents reversed, then the root, then the
children, provided the service returned one revision per handle. -/
theorem buildStack_single_root (root : Revision)
    (parentRevs childRevs : List Revision) (ps cs : List String)
    (hp : parentRevs.length = ps.length) (hc : childRevs.length = cs.length) :
    buildStack [root] parentRevs childRevs (!ps.isEmpty) (!cs.isEmpty) =
      parentRevs.reverse ++ root :: childRevs := by
  cases ps with
  | nil =>
    have hpe : parentRevs = [] := List.length_eq_zero.mp (by simp [hp])
    cases cs with
    | nil =>
      have hce : childRevs = [] := List.length_eq_zero.mp (by simp [hc])
      simp [buildStack, hpe, hce]
    | cons c ct => simp [buildStack, hpe]
  | cons p pt =>
    cases cs with
    | nil =>
      have hce : childRevs = [] := List.length_eq_zero.mp (by simp [hc])
      simp [buildStack, hce]
    | cons c ct => simp [buildStack]

/-- The prompt stage is a no-op when no children were kept from the
descendant walk. -/
@[simp] theorem promptStage_nil (args : Args) (cfg : Config) (choice : String)
    (rid : Nat) : promptStage args cfg choice rid [] = ([], cfg, []) := by
  by_cases hy : args.yes <;> simp [promptStage, hy]

/-- The prompt stage is a no-op passing all children through when the
yes flag is set. -/
theorem promptStage_yes (args : Args) (cfg : Config) (choice : String)
    (rid : Nat) (children : List String) (hy : args.yes = true) :
    promptStage args cfg choice rid children = (children, cfg, []) := by
  simp [promptStage, hy]

/-- Stack assembly when no children are kept: parents reversed then the
root. -/
theorem buildStack_no_children (root : Revision)
    (parentRevs childRevs : List Revision) (ps : List String)
    (hp : parentRevs.length = ps.length) :
    buildStack [root] parentRevs childRevs (!ps.isEmpty) false =
      parentRevs.reverse ++ [root] := by
  cases ps with
  | nil =>
    have hpe : parentRevs = [] := List.length_eq_zero.mp (by simp [hp])
    simp [buildStack, hpe]
  | cons p pt => simp [buildStack]

/-- A find over an appended list whose first part has no match returns
the head match of the second part. -/
theorem find?_first {α : Type} {p : α → Bool} :
    ∀ (l1 : List α) (e : α) (l2 : List α),
      (∀ r ∈ l1, p r = false) → p e = true →
      List.find? p (l1 ++ e :: l2) = some e := by
  intro l1
  induction l1 with
  | nil => intro e l2 _ hp; simp [List.find?_cons, hp]
  | cons a t ih =>
    intro e l2 hnone hp
    have ha := hnone a (by simp)
    simp only [List.cons_append, List.find?_cons, ha]
    exact ih e l2 (fun r hr => hnone r (by simp [hr])) hp

set_option maxHeartbeats 1000000 in
/-- When the non-interactive yes flag is set, the pipeline after the
Guard never shows the children prompt, never writes the config, and
leaves the persisted always-accept preference exactly as it was. -/
theorem patchMain_yes_invariant (env : Env) (args : Args) (cfg : Config)
    (pre : List Event) (hyes : args.yes = true)
    (hpre1 : ∀ i, Event.promptChildren i ∉ pre)
    (hpre2 : Event.configWrite ∉ pre) :
    (∀ i, Event.promptChildren i ∉ (patchMain env args cfg pre).events) ∧
    Event.configWrite ∉ (patchMain env args cfg pre).events ∧
    (patchMain env args cfg pre).always_full_stack = cfg.always_full_stack := by
  have hps : ∀ (cfg2 : Config) (rid : Nat) (cl : List String),
      promptStage args cfg2 env.promptChoice rid cl = (cl, cfg2, []) :=
    fun cfg2 rid cl => promptStage_yes args cfg2 env.promptChoice rid cl hyes
  have hnp1 : ∀ lid revs parent i, Event.promptChildren i ∉
      (applyLoop env args lid parent revs).1 :=
    fun lid revs parent i =>
      (applyLoop_no_control_events env args lid revs parent).2.2.1 i
  have hnp2 : ∀ lid revs parent, Event.configWrite ∉
      (applyLoop env args lid parent revs).1 :=
    fun lid revs parent =>
      (applyLoop_no_control_events env args lid revs parent).2.2.2.1
  simp only [patchMain, hps]
  repeat' split
  all_goals simp_all [hnp1, hnp2]

/-- When the non-interactive yes flag is set, no run ever shows the
children prompt, never writes the config, and leaves the persisted
always-accept preference exactly as it was. -/
theorem patchRun_yes_invariant (env : Env) (args : Args) (cfg : Config)
    (hyes : args.yes = true) :
    (∀ i, Event.promptChildren i ∉ (patchRun env args cfg).events) ∧
    Event.configWrite ∉ (patchRun env args cfg).events ∧
    (patchRun env args cfg).always_full_stack = cfg.always_full_stack := by
  by_cases hcc : env.conduitCheck = false
  · simp [patchRun, hcc]
  by_cases hg1 : args.raw = false ∧ env.vcsOk = false
  · simp [patchRun, hcc, hg1]
  by_cases hg2 : args.raw = false ∧ env.worktreeClean = false
  · have hv : ¬env.vcsOk = false := fun h => hg1 ⟨hg2.1, h⟩
    simp [patchRun, hcc, hg1, hg2, hv]
  have hyes2 : (if args.no_dependencies then
      { args with no_parents := true, no_children := true } else args).yes =
      true := by
    by_cases h : args.no_dependencies <;> simp [h, hyes]
  have hm := patchMain_yes_invariant env
    (if args.no_dependencies then
      { args with no_parents := true, no_children := true } else args)
    cfg (if args.raw then [] else [.checkVcs, .checkClean]) hyes2
    (by by_cases h : args.raw = true <;> simp [h])
    (by by_cases h : args.raw = true <;> simp [h])
  simp only [patchRun]
  rw [if_neg hcc, if_neg hg1, if_neg hg2]
  exact hm

/-! ### Characterisation of `check_revision_id` -/

theorem stripLit_sound (ls : List Char) :
    ∀ cs rest, stripLit ls cs = some rest → cs = ls ++ rest := by
  induction ls with
  | nil =>
    intro cs rest h
    simp only [stripLit, Option.some.injEq] at h
    simp [h]
  | cons l ls ih =>
    intro cs rest h
    cases cs with
    | nil => simp [stripLit] at h
    | cons c cs =>
      simp only [stripLit] at h
      by_cases hc : c = l
      · rw [if_pos hc] at h
        subst hc
        simpa using ih cs rest h
      · rw [if_neg hc] at h
        exact absurd h (by simp)

/-- A string accepted by the first branch of `check_revision_id`: an
optional letter D, then one or more Unicode decimal digits, then
nothing or one final newline (the dollar anchor of the Python pattern
also matches just before a trailing newline). -/
def DNumShape (s : String) (n : Nat) : Prop :=
  ∃ ds tl : List Char, ds ≠ [] ∧ (∀ c ∈ ds, isPyDigit c = true) ∧
    digitsVal ds = n ∧ (tl = [] ∨ tl = ['\n']) ∧
    (s.data = ds ++ tl ∨ s.data = 'D' :: (ds ++ tl))

/-- A string accepted by the URL branch of `check_revision_id`: an http
or https scheme, a nonempty host with no slash, then a path whose first
segment starts with the letter D and the revision number (the maximal
run of Unicode decimal digits), with an arbitrary remainder after the
digits. -/
def UrlShape (s : String) (n : Nat) : Prop :=
  ∃ sPart host ds rest : List Char,
    (sPart = [] ∨ sPart = ['s']) ∧
    host ≠ [] ∧ (∀ c ∈ host, c ≠ '/') ∧
    ds ≠ [] ∧ (∀ c ∈ ds, isPyDigit c = true) ∧ digitsVal ds = n ∧
    (∀ c ∈ rest.head?, isPyDigit c = false) ∧
    s.data = ['h', 't', 't', 'p'] ++ sPart ++ [':', '/', '/'] ++ host ++
      '/' :: 'D' :: (ds ++ rest)

theorem stripD_cases (cs : List Char) :
    cs = stripD cs ∨ cs = 'D' :: stripD cs := by
  by_cases hh : cs.head? = some 'D'
  · right
    cases cs with
    | nil => simp at hh
    | cons c t =>
      simp only [List.head?_cons, Option.some.injEq] at hh
      simp [stripD, hh]
  · left
    simp [stripD, hh]

theorem matchDNum_sound (cs : List Char) (n : Nat) (h : matchDNum cs = some n) :
    ∃ ds tl : List Char, ds ≠ [] ∧ (∀ c ∈ ds, isPyDigit c = true) ∧
      digitsVal ds = n ∧ (tl = [] ∨ tl = ['\n']) ∧
      (cs = ds ++ tl ∨ cs = 'D' :: (ds ++ tl)) := by
  simp only [matchDNum] at h
  by_cases he : ((stripD cs).takeWhile isPyDigit).isEmpty
  · rw [if_pos he] at h
    exact absurd h (by simp)
  · rw [if_neg he] at h
    by_cases hrest : (stripD cs).dropWhile isPyDigit = [] ∨
        (stripD cs).dropWhile isPyDigit = ['\n']
    · rw [if_pos hrest] at h
      refine ⟨(stripD cs).takeWhile isPyDigit, (stripD cs).dropWhile isPyDigit,
        ?_, ?_, Option.some.inj h, hrest, ?_⟩
      · intro hnil
        rw [hnil] at he
        exact he rfl
      · intro c hc
        exact List.mem_takeWhile_imp hc
      · rw [List.takeWhile_append_dropWhile]
        exact stripD_cases cs
    · rw [if_neg hrest] at h
      exact absurd h (by simp)

theorem matchUrl_sound (cs : List Char) (n : Nat) (h : matchUrl cs = some n) :
    ∃ sPart host ds rest : List Char,
      (sPart = [] ∨ sPart = ['s']) ∧
      host ≠ [] ∧ (∀ c ∈ host, c ≠ '/') ∧
      ds ≠ [] ∧ (∀ c ∈ ds, isPyDigit c = true) ∧ digitsVal ds = n ∧
      (∀ c ∈ rest.head?, isPyDigit c = false) ∧
      cs = ['h', 't', 't', 'p'] ++ sPart ++ [':', '/', '/'] ++ host ++
        '/' :: 'D' :: (ds ++ rest) := by
  simp only [matchUrl] at h
  cases h4 : stripLit ['h', 't', 't', 'p'] cs with
  | none => rw [h4] at h; exact absurd h (by simp)
  | some cs1 =>
    rw [h4] at h
    dsimp only at h
    have hcs : cs = ['h', 't', 't', 'p'] ++ cs1 := stripLit_sound _ _ _ h4
    cases h5 : stripLit [':', '/', '/']
        (if cs1.head? = some 's' then cs1.tail else cs1) with
    | none => rw [h5] at h; exact absurd h (by simp)
    | some cs3 =>
      rw [h5] at h
      dsimp only at h
      have hcs2 : (if cs1.head? = some 's' then cs1.tail else cs1) =
          [':', '/', '/'] ++ cs3 := stripLit_sound _ _ _ h5
      by_cases hhost : (cs3.takeWhile (fun c => c ≠ '/')).isEmpty
      · rw [if_pos hhost] at h
        exact absurd h (by simp)
      · rw [if_neg hhost] at h
        by_cases hslash : (cs3.dropWhile (fun c => c ≠ '/')).head? = some '/' ∧
            (cs3.dropWhile (fun c => c ≠ '/')).tail.head? = some 'D'
        · rw [if_pos hslash] at h
          by_cases hds :
              ((cs3.dropWhile (fun c => c ≠ '/')).tail.tail.takeWhile
                isPyDigit).isEmpty
          · rw [if_pos hds] at h
            exact absurd h (by simp)
          · rw [if_neg hds] at h
            -- name the pieces
            set host := cs3.takeWhile (fun c => c ≠ '/') with hhostdef
            set dropped := cs3.dropWhile (fun c => c ≠ '/') with hdropdef
            set rest2 := dropped.tail.tail with hrest2def
            set ds := rest2.takeWhile isPyDigit with hdsdef
            set rest3 := rest2.dropWhile isPyDigit with hrest3def
            -- the s part
            refine ⟨if cs1.head? = some 's' then ['s'] else [], host, ds, rest3,
              ?_, ?_, ?_, ?_, ?_, ?_, ?_, ?_⟩
            · by_cases hs : cs1.head? = some 's'
              · right; rw [if_pos hs]
              · left; rw [if_neg hs]
            · intro hnil; rw [hnil] at hhost; exact hhost rfl
            · intro c hc
              have := List.mem_takeWhile_imp (l := cs3)
                (p := fun c => c ≠ '/') (hhostdef ▸ hc)
              simpa using this
            · intro hnil; rw [hnil] at hds; exact hds rfl
            · intro c hc
              exact List.mem_takeWhile_imp (hdsdef ▸ hc)
            · exact Option.some.inj h
            · intro c hc
              have hnot := List.head?_dropWhile_not isPyDigit rest2
              rw [← hrest3def] at hnot
              cases hh : rest3.head? with
              | none => rw [hh] at hc; simp at hc
              | some c2 =>
                rw [hh] at hc hnot
                simp only [Option.mem_def, Option.some.injEq] at hc
                subst hc
                exact hnot
            · -- reassemble the input
              have hsplit3 : cs3 = host ++ dropped := by
                rw [hhostdef, hdropdef]
                exact (List.takeWhile_append_dropWhile _ _).symm
              have hdropped : dropped = '/' :: 'D' :: rest2 := by
                cases hd1 : dropped with
                | nil => rw [hd1] at hslash; simp at hslash
                | cons a t =>
                  rw [hd1] at hslash
                  obtain ⟨ha, hb⟩ := hslash
                  simp only [List.head?_cons, Option.some.injEq] at ha
                  cases ht : t with
                  | nil => rw [ht] at hb; simp at hb
                  | cons b t2 =>
                    rw [ht] at hb
                    simp only [List.tail_cons, List.head?_cons,
                      Option.some.injEq] at hb
                    rw [hrest2def, hd1, ht, ha, hb]
                    simp
              have hrest2 : rest2 = ds ++ rest3 := by
                rw [hdsdef, hrest3def]
                exact (List.takeWhile_append_dropWhile _ _).symm
              by_cases hs : cs1.head? = some 's'
              · have hcs1split : cs1 = 's' :: ([':', '/', '/'] ++ cs3) := by
                  rw [if_pos hs] at hcs2
                  cases cs1 with
                  | nil => simp at hs
                  | cons a t =>
                    simp only [List.head?_cons, Option.some.injEq] at hs
                    simp only [List.tail_cons] at hcs2
                    simp [hs, hcs2]
                rw [hcs, if_pos hs, hcs1split, hsplit3, hdropped, hrest2]
                simp
              · have hcs1split : cs1 = [':', '/', '/'] ++ cs3 := by
                  rw [if_neg hs] at hcs2
                  exact hcs2
                rw [hcs, if_neg hs, hcs1split, hsplit3, hdropped, hrest2]
                simp
        · rw [if_neg hslash] at h
          exact absurd h (by simp)

theorem check_revision_id_sound (s : String) (n : Nat)
    (h : check_revision_id s = some n) : DNumShape s n ∨ UrlShape s n := by
  simp only [check_revision_id] at h
  cases hm : matchDNum s.data with
  | some m =>
    rw [hm] at h
    left
    obtain ⟨ds, tl, h1, h2, h3, h4, h5⟩ := matchDNum_sound s.data m hm
    exact ⟨ds, tl, h1, h2, by rw [h3]; exact Option.some.inj h, h4, h5⟩
  | none =>
    rw [hm] at h
    right
    obtain ⟨sPart, host, ds, rest, h1, h2, h3, h4, h5, h6, h7, h8⟩ :=
      matchUrl_sound s.data n h
    exact ⟨sPart, host, ds, rest, h1, h2, h3, h4, h5, h6, h7, h8⟩

/-! ### Claims -/

/-- C8: the revision-id argument parser maps the spellings "123" and
"D123", and a full review-service URL carrying D123 as the first path
segment, to the integer 123; and every string it accepts at all is of
one of the two accepted shapes (optional-D number up to the Python
end-of-line anchor, or http or https URL with D-number as first path
segment), so every other string is rejected with the argparse error.
Matching the Python regex semantics, the number may also be written in
any Unicode decimal digits and the first pattern tolerates one trailing
newline; a URL whose D-number appears deeper in the path is not of the
shape and is rejected. -/
theorem claim_C8_check_revision_id :
    check_revision_id "123" = some 123 ∧
    check_revision_id "D123" = some 123 ∧
    check_revision_id "https://phabricator.services.mozilla.com/D123" =
      some 123 ∧
    check_revision_id "D123\n" = some 123 ∧
    check_revision_id "١٢٣" = some 123 ∧
    check_revision_id "review-123" = none ∧
    ∀ s n, check_revision_id s = some n → DNumShape s n ∨ UrlShape s n :=
  ⟨by decide, by decide, by decide, by decide, by decide, by decide,
    fun s n h => check_revision_id_sound s n h⟩

/-- Witness for C8: instantiating its universally quantified conjunct at
the concrete accepted string D77. -/
theorem claim_C8_witness : DNumShape "D77" 77 ∨ UrlShape "D77" 77 :=
  claim_C8_check_revision_id.2.2.2.2.2.2 "D77" 77 (by decide)

/-- C1: every run that resolves a purely linear dependency chain (root
found, ancestor and descendant walks answer without a NonLinear error,
children confirmed by the non-interactive yes flag, one revision fetched
per handle) applies, in commit mode on the current position with
well-formed data, exactly the root plus all resolved parents and
children: the committed sequence is parents oldest-first (the service
lists ancestors nearest-first and the code reverses), then the root,
then children nearest-first; its length is the chain length plus one and
the root sits at the offset equal to the number of resolved parents. -/
theorem claim_C1_linear_stack (env : Env) (args : Args) (cfg : Config)
    (root : Revision) (ps cs : List String)
    (parentRevs childRevs : List Revision) (dOf : Revision → Diff)
    (hcc : env.conduitCheck = true) (hraw : args.raw = false)
    (hvcs : env.vcsOk = true) (hclean : env.worktreeClean = true)
    (hnd : args.no_dependencies = false) (hnp : args.no_parents = false)
    (hnc2 : args.no_children = false) (hnocommit : args.no_commit = false)
    (hyes : args.yes = true) (happ : args.apply_to = some "here")
    (hroot : env.revisionsById = [root])
    (hanc : env.ancestorPhids = .ok ps)
    (hsucc : env.successorPhids args.include_abandoned = .ok cs)
    (hpr : env.revisionsByPhids ps = parentRevs)
    (hcr : env.revisionsByPhids cs = childRevs)
    (hplen : parentRevs.length = ps.length)
    (hclen : childRevs.length = cs.length)
    (hd : ∀ r ∈ parentRevs.reverse ++ root :: childRevs,
      env.diffs r.diffPHID = some (dOf r))
    (hcom : ∀ r ∈ parentRevs.reverse ++ root :: childRevs,
      (dOf r).commits ≠ [])
    (hok : ∀ r ∈ parentRevs.reverse ++ root :: childRevs,
      env.applyPatchOk r.id = true) :
    (patchRun env args cfg).error = none ∧
    commitIds (patchRun env args cfg).events =
      (parentRevs.reverse ++ root :: childRevs).map (fun r => r.id) ∧
    (parentRevs.reverse ++ root :: childRevs).length =
      parentRevs.length + childRevs.length + 1 ∧
    (parentRevs.reverse ++ root :: childRevs)[parentRevs.length]? =
      some root := by
  have hlast : (parentRevs.reverse ++ root :: childRevs).getLast? =
      some ((parentRevs.reverse ++ root :: childRevs).getLast (by simp)) :=
    List.getLast?_eq_getLast _ _
  have hlast2 : (root :: childRevs).getLast? =
      some ((root :: childRevs).getLast (by simp)) :=
    List.getLast?_eq_getLast _ _
  have hloop1 : ∀ lid,
      (applyLoop env args lid none (parentRevs.reverse ++ root :: childRevs)).2 =
        none :=
    fun lid =>
      (applyLoop_commit_ok env args lid hnocommit hraw dOf _ none hd hcom hok).1
  have hloop2 : ∀ lid,
      commitIds
        (applyLoop env args lid none (parentRevs.reverse ++ root :: childRevs)).1 =
        (parentRevs.reverse ++ root :: childRevs).map (fun r => r.id) :=
    fun lid =>
      (applyLoop_commit_ok env args lid hnocommit hraw dOf _ none hd hcom hok).2.1
  have hchk := checkCommits_none env (parentRevs.reverse ++ root :: childRevs)
    (fun r hr => ⟨dOf r, hd r hr, hcom r hr⟩)
  have hps := promptStage_yes args cfg env.promptChoice args.revision_id cs hyes
  have hbs := buildStack_single_root root parentRevs childRevs ps cs hplen hclen
  refine ⟨?_, ?_, by simp; omega, by rw [List.getElem?_append_right (by simp)]; simp⟩
  · simp [patchRun, patchMain, hcc, hraw, hvcs, hclean, hnd, hroot, hnp, hanc, hsucc,
      hnc2, hnocommit, happ, hpr, hcr, hps, hbs, hchk, hlast, hlast2, hloop1]
  · simp [patchRun, patchMain, hcc, hraw, hvcs, hclean, hnd, hroot, hnp, hanc, hsucc,
      hnc2, hnocommit, happ, hpr, hcr, hps, hbs, hchk, hlast, hlast2, hloop1,
      hloop2]

/-- Witness for C1: a concrete linear chain parent-root-child is applied
as parent, root, child with the root at offset one. -/
theorem claim_C1_witness :
    (patchRun
      { conduitCheck := true, vcsOk := true, worktreeClean := true,
        isMercurial := false, phabUrl := "u",
        revisionsById := [⟨2, "R2", "t2", "s2", "DP2"⟩],
        ancestorPhids := .ok ["R1"], successorPhids := fun _ => .ok ["R3"],
        promptChoice := "Yes",
        revisionsByPhids := fun l =>
          if l = ["R1"] then [⟨1, "R1", "t1", "s1", "DP1"⟩]
          else if l = ["R3"] then [⟨3, "R3", "t3", "s3", "DP3"⟩] else [],
        diffs := fun p =>
          if p = "DP1" then some ⟨11, [], 100, [⟨"a", "a@x"⟩]⟩
          else if p = "DP2" then some ⟨12, [], 200, [⟨"b", "b@x"⟩]⟩
          else if p = "DP3" then some ⟨13, [], 300, [⟨"c", "c@x"⟩]⟩ else none,
        rawDiff := fun i => "RAW" ++ toString i,
        checkNode := fun s => .ok s, applyPatchOk := fun _ => true }
      ⟨2, false, false, some "here", false, false, false, false, true⟩
      ⟨false, "branch"⟩).error = none ∧
    commitIds (patchRun
      { conduitCheck := true, vcsOk := true, worktreeClean := true,
        isMercurial := false, phabUrl := "u",
        revisionsById := [⟨2, "R2", "t2", "s2", "DP2"⟩],
        ancestorPhids := .ok ["R1"], successorPhids := fun _ => .ok ["R3"],
        promptChoice := "Yes",
        revisionsByPhids := fun l =>
          if l = ["R1"] then [⟨1, "R1", "t1", "s1", "DP1"⟩]
          else if l = ["R3"] then [⟨3, "R3", "t3", "s3", "DP3"⟩] else [],
        diffs := fun p =>
          if p = "DP1" then some ⟨11, [], 100, [⟨"a", "a@x"⟩]⟩
          else if p = "DP2" then some ⟨12, [], 200, [⟨"b", "b@x"⟩]⟩
          else if p = "DP3" then some ⟨13, [], 300, [⟨"c", "c@x"⟩]⟩ else none,
        rawDiff := fun i => "RAW" ++ toString i,
        checkNode := fun s => .ok s, applyPatchOk := fun _ => true }
      ⟨2, false, false, some "here", false, false, false, false, true⟩
      ⟨false, "branch"⟩).events = [1, 2, 3] := by
  have h := claim_C1_linear_stack
    { conduitCheck := true, vcsOk := true, worktreeClean := true,
      isMercurial := false, phabUrl := "u",
      revisionsById := [⟨2, "R2", "t2", "s2", "DP2"⟩],
      ancestorPhids := .ok ["R1"], successorPhids := fun _ => .ok ["R3"],
      promptChoice := "Yes",
      revisionsByPhids := fun l =>
        if l = ["R1"] then [⟨1, "R1", "t1", "s1", "DP1"⟩]
        else if l = ["R3"] then [⟨3, "R3", "t3", "s3", "DP3"⟩] else [],
      diffs := fun p =>
        if p = "DP1" then some ⟨11, [], 100, [⟨"a", "a@x"⟩]⟩
        else if p = "DP2" then some ⟨12, [], 200, [⟨"b", "b@x"⟩]⟩
        else if p = "DP3" then some ⟨13, [], 300, [⟨"c", "c@x"⟩]⟩ else none,
      rawDiff := fun i => "RAW" ++ toString i,
      checkNode := fun s => .ok s, applyPatchOk := fun _ => true }
    ⟨2, false, false, some "here", false, false, false, false, true⟩
    ⟨false, "branch"⟩ ⟨2, "R2", "t2", "s2", "DP2"⟩ ["R1"] ["R3"]
    [⟨1, "R1", "t1", "s1", "DP1"⟩] [⟨3, "R3", "t3", "s3", "DP3"⟩]
    (fun r => if r.diffPHID = "DP1" then ⟨11, [], 100, [⟨"a", "a@x"⟩]⟩
      else if r.diffPHID = "DP2" then ⟨12, [], 200, [⟨"b", "b@x"⟩]⟩
      else ⟨13, [], 300, [⟨"c", "c@x"⟩]⟩)
    rfl rfl rfl rfl rfl rfl rfl rfl rfl rfl rfl rfl rfl rfl rfl rfl rfl
    (by decide) (by decide) (by decide)
  exact ⟨h.1, by simpa using h.2.1⟩

/-- A concrete three-revision environment in which the second patch of
the stack fails to apply: revisions 1, 2, 3 with revision 3 the fetched
root and revisions 2 and 1 its ancestors. -/
def c2env : Env :=
  { conduitCheck := true, vcsOk := true, worktreeClean := true,
    isMercurial := false, phabUrl := "u",
    revisionsById := [⟨3, "R3", "t3", "s3", "DP3"⟩],
    ancestorPhids := .ok ["R2", "R1"], successorPhids := fun _ => .ok [],
    promptChoice := "Yes",
    revisionsByPhids := fun l =>
      if l = ["R2", "R1"] then
        [⟨2, "R2", "t2", "s2", "DP2"⟩, ⟨1, "R1", "t1", "s1", "DP1"⟩]
      else [],
    diffs := fun p =>
      if p = "DP1" then some ⟨11, [], 100, [⟨"a", "a@x"⟩]⟩
      else if p = "DP2" then some ⟨12, [], 200, [⟨"b", "b@x"⟩]⟩
      else if p = "DP3" then some ⟨13, [], 300, [⟨"c", "c@x"⟩]⟩ else none,
    rawDiff := fun i => "RAW" ++ toString i,
    checkNode := fun s => .ok s, applyPatchOk := fun i => i ≠ 2 }

/-- The arguments of the concrete failing run: commit mode, applied to
the current position, parents resolved, children off, confirmed with the
yes flag. -/
def c2args : Args := ⟨3, false, false, some "here", false, true, false, false, true⟩

/-- Counterexample to C2 as stated: in the concrete three-revision
commit-mode run where the second revision's patch fails, the run does
terminate with the patch-failed error and exactly revision 1 committed,
but that error is the bare "Patch failed to apply": its message carries
no revision id at all, so it does not reference the second revision's
id. -/
theorem claim_C2_counterexample :
    (patchRun c2env c2args ⟨false, "branch"⟩).error =
      some PatchError.patchFailed ∧
    commitIds (patchRun c2env c2args ⟨false, "branch"⟩).events = [1] ∧
    errorMentionsRevisionId PatchError.patchFailed = none := by
  refine ⟨?_, ?_, rfl⟩ <;> decide

/-- C2 amended: in commit mode, for a 3-revision stack whose second
revision's patch fails to apply, exactly the first revision has been
committed, the third revision's diff is never even downloaded, and the
run terminates with the patch-failed error - whose message, unlike the
claim states, carries no revision id. -/
theorem claim_C2_amended_patch_failure (env : Env) (args : Args) (cfg : Config)
    (r1 r2 r3 : Revision) (p1 p2 : String) (dOf : Revision → Diff)
    (hcc : env.conduitCheck = true) (hraw : args.raw = false)
    (hvcs : env.vcsOk = true) (hclean : env.worktreeClean = true)
    (hnd : args.no_dependencies = false) (hnp : args.no_parents = false)
    (hnc2 : args.no_children = true) (hnocommit : args.no_commit = false)
    (happ : args.apply_to = some "here")
    (hroot : env.revisionsById = [r3])
    (hanc : env.ancestorPhids = .ok [p1, p2])
    (hpr : env.revisionsByPhids [p1, p2] = [r2, r1])
    (hd : ∀ r ∈ [r1, r2, r3], env.diffs r.diffPHID = some (dOf r))
    (hcom : ∀ r ∈ [r1, r2, r3], (dOf r).commits ≠ [])
    (hok1 : env.applyPatchOk r1.id = true)
    (hbad : env.applyPatchOk r2.id = false) :
    (patchRun env args cfg).error = some PatchError.patchFailed ∧
    commitIds (patchRun env args cfg).events = [r1.id] ∧
    rawFetchIds (patchRun env args cfg).events = [(dOf r1).id, (dOf r2).id] ∧
    errorMentionsRevisionId PatchError.patchFailed = none := by
  have hd2 : ∀ r ∈ [r1] ++ [r2], env.diffs r.diffPHID = some (dOf r) := by
    intro r hr
    exact hd r (by simp at hr ⊢; tauto)
  have hcom2 : ∀ r ∈ [r1] ++ [r2], (dOf r).commits ≠ [] := by
    intro r hr
    exact hcom r (by simp at hr ⊢; tauto)
  have hok2 : ∀ r ∈ [r1], env.applyPatchOk r.id = true := by
    intro r hr
    simp at hr
    rw [hr]
    exact hok1
  have hfail1 : ∀ lid, (applyLoop env args lid none [r1, r2, r3]).2 =
      some .patchFailed := by
    intro lid
    have := (applyLoop_commit_fail env args lid hnocommit hraw dOf [r1] r2 [r3]
      none hd2 hcom2 hok2 hbad).1
    simpa using this
  have hfail2 : ∀ lid, commitIds (applyLoop env args lid none [r1, r2, r3]).1 =
      [r1.id] := by
    intro lid
    have := (applyLoop_commit_fail env args lid hnocommit hraw dOf [r1] r2 [r3]
      none hd2 hcom2 hok2 hbad).2.1
    simpa using this
  have hfail3 : ∀ lid, rawFetchIds (applyLoop env args lid none [r1, r2, r3]).1 =
      [(dOf r1).id, (dOf r2).id] := by
    intro lid
    have := (applyLoop_commit_fail env args lid hnocommit hraw dOf [r1] r2 [r3]
      none hd2 hcom2 hok2 hbad).2.2
    simpa using this
  have hchk := checkCommits_none env [r1, r2, r3]
    (fun r hr => ⟨dOf r, hd r hr, hcom r hr⟩)
  refine ⟨?_, ?_, ?_, rfl⟩ <;>
    simp [patchRun, patchMain, hcc, hraw, hvcs, hclean, hnd, hroot, hnp, hanc, hnc2,
      hnocommit, happ, hpr, hchk, buildStack, hfail1, hfail2, hfail3]

/-- Witness for the amended C2 at the concrete three-revision run. -/
theorem claim_C2_amended_witness :
    (patchRun c2env c2args ⟨false, "branch"⟩).error =
      some PatchError.patchFailed ∧
    rawFetchIds (patchRun c2env c2args ⟨false, "branch"⟩).events = [11, 12] := by
  have h := claim_C2_amended_patch_failure c2env c2args ⟨false, "branch"⟩
    ⟨1, "R1", "t1", "s1", "DP1"⟩ ⟨2, "R2", "t2", "s2", "DP2"⟩
    ⟨3, "R3", "t3", "s3", "DP3"⟩ "R2" "R1"
    (fun r => if r.diffPHID = "DP1" then ⟨11, [], 100, [⟨"a", "a@x"⟩]⟩
      else if r.diffPHID = "DP2" then ⟨12, [], 200, [⟨"b", "b@x"⟩]⟩
      else ⟨13, [], 300, [⟨"c", "c@x"⟩]⟩)
    rfl rfl rfl rfl rfl rfl rfl rfl rfl rfl rfl rfl
    (by decide) (by decide) (by decide) (by decide)
  exact ⟨h.1, by simpa using h.2.2.1⟩

/-- C4: in every run that requests child resolution, a NonLinear answer
from the descendant walk is non-fatal: the run records the warning,
drops the children, and (in commit mode on the current position, with
the remaining data well-formed) completes without error, committing
exactly the resolved parents oldest-first and then the root. -/
theorem claim_C4_nonlinear_children_warn (env : Env) (args : Args)
    (cfg : Config) (root : Revision) (ps : List String)
    (parentRevs : List Revision) (dOf : Revision → Diff)
    (hcc : env.conduitCheck = true) (hraw : args.raw = false)
    (hvcs : env.vcsOk = true) (hclean : env.worktreeClean = true)
    (hnd : args.no_dependencies = false) (hnp : args.no_parents = false)
    (hnc2 : args.no_children = false) (hnocommit : args.no_commit = false)
    (happ : args.apply_to = some "here")
    (hroot : env.revisionsById = [root])
    (hanc : env.ancestorPhids = .ok ps)
    (hsucc : env.successorPhids args.include_abandoned = .error ())
    (hpr : env.revisionsByPhids ps = parentRevs)
    (hplen : parentRevs.length = ps.length)
    (hd : ∀ r ∈ parentRevs.reverse ++ [root], env.diffs r.diffPHID = some (dOf r))
    (hcom : ∀ r ∈ parentRevs.reverse ++ [root], (dOf r).commits ≠ [])
    (hok : ∀ r ∈ parentRevs.reverse ++ [root], env.applyPatchOk r.id = true) :
    (patchRun env args cfg).error = none ∧
    Event.warnNonLinearChildren args.revision_id ∈ (patchRun env args cfg).events ∧
    commitIds (patchRun env args cfg).events =
      (parentRevs.reverse ++ [root]).map (fun r => r.id) := by
  have hloop := applyLoop_commit_ok env args root.id hnocommit hraw dOf
    (parentRevs.reverse ++ [root]) none hd hcom hok
  have hchk := checkCommits_none env (parentRevs.reverse ++ [root])
    (fun r hr => ⟨dOf r, hd r hr, hcom r hr⟩)
  have hbs := buildStack_no_children root parentRevs (env.revisionsByPhids [])
    ps hplen
  simp [patchRun, patchMain, hcc, hraw, hvcs, hclean, hnd, hroot, hnp, hanc, hsucc,
    hnc2, happ, hpr, hbs, hchk, hloop.1, hloop.2.1]

/-- Witness for C4 at a concrete environment with a branching descendant
chain: the run warns, drops the children and applies the root. -/
theorem claim_C4_witness :
    (patchRun
      { conduitCheck := true, vcsOk := true, worktreeClean := true,
        isMercurial := false, phabUrl := "u",
        revisionsById := [⟨7, "R7", "t", "s", "DP7"⟩],
        ancestorPhids := .ok [], successorPhids := fun _ => .error (),
        promptChoice := "Yes", revisionsByPhids := fun _ => [],
        diffs := fun _ => some ⟨70, [], 0, [⟨"a", "a@x"⟩]⟩,
        rawDiff := fun _ => "", checkNode := fun s => .ok s,
        applyPatchOk := fun _ => true }
      ⟨7, false, false, some "here", false, false, false, false, true⟩
      ⟨false, "branch"⟩).error = none ∧
    commitIds (patchRun
      { conduitCheck := true, vcsOk := true, worktreeClean := true,
        isMercurial := false, phabUrl := "u",
        revisionsById := [⟨7, "R7", "t", "s", "DP7"⟩],
        ancestorPhids := .ok [], successorPhids := fun _ => .error (),
        promptChoice := "Yes", revisionsByPhids := fun _ => [],
        diffs := fun _ => some ⟨70, [], 0, [⟨"a", "a@x"⟩]⟩,
        rawDiff := fun _ => "", checkNode := fun s => .ok s,
        applyPatchOk := fun _ => true }
      ⟨7, false, false, some "here", false, false, false, false, true⟩
      ⟨false, "branch"⟩).events = [7] := by
  have h := claim_C4_nonlinear_children_warn
    { conduitCheck := true, vcsOk := true, worktreeClean := true,
      isMercurial := false, phabUrl := "u",
      revisionsById := [⟨7, "R7", "t", "s", "DP7"⟩],
      ancestorPhids := .ok [], successorPhids := fun _ => .error (),
      promptChoice := "Yes", revisionsByPhids := fun _ => [],
      diffs := fun _ => some ⟨70, [], 0, [⟨"a", "a@x"⟩]⟩,
      rawDiff := fun _ => "", checkNode := fun s => .ok s,
      applyPatchOk := fun _ => true }
    ⟨7, false, false, some "here", false, false, false, false, true⟩
    ⟨false, "branch"⟩ ⟨7, "R7", "t", "s", "DP7"⟩ [] []
    (fun _ => ⟨70, [], 0, [⟨"a", "a@x"⟩]⟩)
    rfl rfl rfl rfl rfl rfl rfl rfl rfl rfl rfl rfl rfl rfl
    (by intro r hr; simp) (by intro r hr; simp) (by intro r hr; simp)
  exact ⟨h.1, by simpa using h.2.2⟩

/-- C5: in base apply-to mode, when the first revision's diff carries no
reference of type base, the run fails fatally with the
base-commit-not-found error; and whenever such a reference is present,
`get_base_ref` returns the first base-typed entry's identifier
unchanged (and returns nothing when no entry is base-typed). -/
theorem claim_C5_base_selection :
    (∀ diff : Diff, (∀ r ∈ diff.refs, r.rtype ≠ "base") →
      get_base_ref diff = none) ∧
    (∀ (diff : Diff) (l1 : List DiffRef) (e : DiffRef) (l2 : List DiffRef),
      diff.refs = l1 ++ e :: l2 → e.rtype = "base" →
      (∀ r ∈ l1, r.rtype ≠ "base") →
      get_base_ref diff = some e.identifier) ∧
    (∀ (env : Env) (args : Args) (cfg : Config) (root : Revision) (d : Diff),
      env.conduitCheck = true → args.raw = false →
      env.vcsOk = true → env.worktreeClean = true →
      args.no_dependencies = true → args.no_commit = false →
      args.apply_to = some "base" →
      env.revisionsById = [root] →
      env.diffs root.diffPHID = some d →
      d.commits ≠ [] →
      (∀ r ∈ d.refs, r.rtype ≠ "base") →
      (patchRun env args cfg).error = some PatchError.baseNotFoundInDiff) := by
  have hnone : ∀ diff : Diff, (∀ r ∈ diff.refs, r.rtype ≠ "base") →
      get_base_ref diff = none := by
    intro diff h
    have : diff.refs.find? (fun r => r.rtype == "base") = none := by
      rw [List.find?_eq_none]
      intro r hr
      simpa using h r hr
    simp [get_base_ref, this]
  refine ⟨hnone, ?_, ?_⟩
  · intro diff l1 e l2 hrefs he hl1
    have : diff.refs.find? (fun r => r.rtype == "base") = some e := by
      rw [hrefs]
      exact find?_first l1 e l2 (fun r hr => by simpa using hl1 r hr)
        (by simpa using he)
    simp [get_base_ref, this]
  · intro env args cfg root d hcc hraw hvcs hclean hnd hnocommit happ hroot
      hd hcom hnobase
    have hgb : get_base_ref d = none := hnone d hnobase
    have hchk := checkCommits_none env [root]
      (fun r hr => by
        simp at hr
        exact hr ▸ ⟨d, hd, hcom⟩)
    simp [patchRun, patchMain, hcc, hraw, hvcs, hclean, hnd, hroot, hnocommit, happ,
      buildStack, hd, hgb, hchk]

/-- Witness for C5: the function-level parts at a concrete diff, and the
fatal run at a concrete environment whose diff has no base reference. -/
theorem claim_C5_witness :
    get_base_ref ⟨11, [⟨"commit", "x"⟩], 0, []⟩ = none ∧
    get_base_ref ⟨11, [⟨"commit", "x"⟩, ⟨"base", "node9"⟩], 0, []⟩ =
      some "node9" ∧
    (patchRun
      { conduitCheck := true, vcsOk := true, worktreeClean := true,
        isMercurial := false, phabUrl := "u",
        revisionsById := [⟨7, "R7", "t", "s", "DP7"⟩],
        ancestorPhids := .ok [], successorPhids := fun _ => .ok [],
        promptChoice := "Yes", revisionsByPhids := fun _ => [],
        diffs := fun _ => some ⟨70, [⟨"commit", "x"⟩], 0, [⟨"a", "a@x"⟩]⟩,
        rawDiff := fun _ => "", checkNode := fun s => .ok s,
        applyPatchOk := fun _ => true }
      ⟨7, false, false, some "base", false, false, true, false, true⟩
      ⟨false, "branch"⟩).error = some PatchError.baseNotFoundInDiff := by
  refine ⟨?_, ?_, ?_⟩
  · exact claim_C5_base_selection.1 ⟨11, [⟨"commit", "x"⟩], 0, []⟩ (by decide)
  · exact claim_C5_base_selection.2.1 ⟨11, [⟨"commit", "x"⟩, ⟨"base", "node9"⟩], 0, []⟩
      [⟨"commit", "x"⟩] ⟨"base", "node9"⟩ [] rfl rfl (by decide)
  · exact claim_C5_base_selection.2.2
      { conduitCheck := true, vcsOk := true, worktreeClean := true,
        isMercurial := false, phabUrl := "u",
        revisionsById := [⟨7, "R7", "t", "s", "DP7"⟩],
        ancestorPhids := .ok [], successorPhids := fun _ => .ok [],
        promptChoice := "Yes", revisionsByPhids := fun _ => [],
        diffs := fun _ => some ⟨70, [⟨"commit", "x"⟩], 0, [⟨"a", "a@x"⟩]⟩,
        rawDiff := fun _ => "", checkNode := fun s => .ok s,
        applyPatchOk := fun _ => true }
      ⟨7, false, false, some "base", false, false, true, false, true⟩
      ⟨false, "branch"⟩ ⟨7, "R7", "t", "s", "DP7"⟩
      ⟨70, [⟨"commit", "x"⟩], 0, [⟨"a", "a@x"⟩]⟩
      rfl rfl rfl rfl rfl rfl rfl rfl rfl (by decide) (by decide)

/-- A concrete run with both the raw flag and the no-commit flag set:
the dispatch tests the no-commit flag first, so this raw-mode run
patches the working tree and prints nothing. -/
def c6env : Env :=
  { conduitCheck := true, vcsOk := true, worktreeClean := true,
    isMercurial := false, phabUrl := "u",
    revisionsById := [⟨7, "R7", "t", "s", "DP7"⟩],
    ancestorPhids := .ok [], successorPhids := fun _ => .ok [],
    promptChoice := "Yes", revisionsByPhids := fun _ => [],
    diffs := fun _ => some ⟨70, [], 0, [⟨"a", "a@x"⟩]⟩,
    rawDiff := fun i => "RAW" ++ toString i,
    checkNode := fun s => .ok s, applyPatchOk := fun _ => true }

/-- Arguments with both raw and no-commit set (the argument parser does
not forbid the combination: only raw and apply-to exclude each other). -/
def c6args : Args := ⟨7, true, true, none, true, true, false, false, true⟩

/-- Counterexample to C6 as stated: a raw-mode run (with the no-commit
flag also set, which the CLI permits) that mutates the working tree by
applying revision 7 uncommitted and emits zero raw diff texts for its
1-revision stack. -/
theorem claim_C6_counterexample :
    (patchRun c6env c6args ⟨false, "branch"⟩).error = none ∧
    uncommittedIds (patchRun c6env c6args ⟨false, "branch"⟩).events = [7] ∧
    rawTexts (patchRun c6env c6args ⟨false, "branch"⟩).events = [] := by
  refine ⟨?_, ?_, ?_⟩ <;> decide

/-- C6 amended: in raw mode without the no-commit flag, for every
N-revision stack the run performs no working-tree mutation and no Guard
pre-flight action (no VCS check, no clean-worktree check, no branch
creation) and emits exactly N raw diff texts, one per revision, in
stack order. -/
theorem claim_C6_amended_raw_mode (env : Env) (args : Args) (cfg : Config)
    (r0 : Revision) (rest : List Revision) (dOf : Revision → Diff)
    (hcc : env.conduitCheck = true) (hraw : args.raw = true)
    (hnocommit : args.no_commit = false)
    (hnd : args.no_dependencies = false) (hnp : args.no_parents = true)
    (hnc2 : args.no_children = true)
    (hroot : env.revisionsById = r0 :: rest)
    (hd : ∀ r ∈ r0 :: rest, env.diffs r.diffPHID = some (dOf r)) :
    (patchRun env args cfg).error = none ∧
    Event.checkVcs ∉ (patchRun env args cfg).events ∧
    Event.checkClean ∉ (patchRun env args cfg).events ∧
    (∀ b br, Event.beforePatch b br ∉ (patchRun env args cfg).events) ∧
    (∀ i, Event.applyUncommitted i ∉ (patchRun env args cfg).events) ∧
    (∀ i b a dt, Event.commit i b a dt ∉ (patchRun env args cfg).events) ∧
    rawTexts (patchRun env args cfg).events =
      (r0 :: rest).map (fun r => env.rawDiff (dOf r).id) := by
  have hl := fun lid => applyLoop_raw env args lid hraw hnocommit dOf
    (r0 :: rest) none hd
  have hl1 : ∀ lid, (applyLoop env args lid none (r0 :: rest)).2 = none :=
    fun lid => (hl lid).1
  have hl2 : ∀ lid, rawTexts (applyLoop env args lid none (r0 :: rest)).1 =
      (r0 :: rest).map (fun r => env.rawDiff (dOf r).id) :=
    fun lid => (hl lid).2.1
  have hctrl := fun lid =>
    applyLoop_no_control_events env args lid (r0 :: rest) none
  have hlast : (r0 :: rest).getLast? =
      some ((r0 :: rest).getLast (by simp)) := List.getLast?_eq_getLast _ _
  refine ⟨?_, ?_, ?_, ?_, ?_, ?_, ?_⟩
  · simp [patchRun, patchMain, hcc, hraw, hnd, hroot, hnp, hnc2, hnocommit, buildStack,
      hlast, hl1]
  · simp [patchRun, patchMain, hcc, hraw, hnd, hroot, hnp, hnc2, hnocommit, buildStack,
      hlast]
    exact (hctrl _).1
  · simp [patchRun, patchMain, hcc, hraw, hnd, hroot, hnp, hnc2, hnocommit, buildStack,
      hlast]
    exact (hctrl _).2.1
  · intro b br
    simp [patchRun, patchMain, hcc, hraw, hnd, hroot, hnp, hnc2, hnocommit, buildStack,
      hlast]
    exact (hctrl _).2.2.2.2.2.1 b br
  · intro i
    simp [patchRun, patchMain, hcc, hraw, hnd, hroot, hnp, hnc2, hnocommit, buildStack,
      hlast]
    exact (hl _).2.2.1 i
  · intro i b a dt
    simp [patchRun, patchMain, hcc, hraw, hnd, hroot, hnp, hnc2, hnocommit, buildStack,
      hlast]
    exact (hl _).2.2.2.1 i b a dt
  · simp [patchRun, patchMain, hcc, hraw, hnd, hroot, hnp, hnc2, hnocommit, buildStack,
      hlast, hl2]

/-- Witness for the amended C6: a concrete two-revision raw run prints
the two raw texts in stack order and touches nothing. -/
theorem claim_C6_amended_witness :
    (patchRun
      { conduitCheck := true, vcsOk := true, worktreeClean := true,
        isMercurial := false, phabUrl := "u",
        revisionsById := [⟨7, "R7", "t", "s", "DP7"⟩, ⟨8, "R8", "t", "s", "DP8"⟩],
        ancestorPhids := .ok [], successorPhids := fun _ => .ok [],
        promptChoice := "Yes", revisionsByPhids := fun _ => [],
        diffs := fun p => if p = "DP7" then some ⟨70, [], 0, []⟩
          else if p = "DP8" then some ⟨80, [], 0, []⟩ else none,
        rawDiff := fun i => "RAW" ++ toString i,
        checkNode := fun s => .ok s, applyPatchOk := fun _ => true }
      ⟨7, true, false, none, true, true, false, false, true⟩
      ⟨false, "branch"⟩).error = none ∧
    rawTexts (patchRun
      { conduitCheck := true, vcsOk := true, worktreeClean := true,
        isMercurial := false, phabUrl := "u",
        revisionsById := [⟨7, "R7", "t", "s", "DP7"⟩, ⟨8, "R8", "t", "s", "DP8"⟩],
        ancestorPhids := .ok [], successorPhids := fun _ => .ok [],
        promptChoice := "Yes", revisionsByPhids := fun _ => [],
        diffs := fun p => if p = "DP7" then some ⟨70, [], 0, []⟩
          else if p = "DP8" then some ⟨80, [], 0, []⟩ else none,
        rawDiff := fun i => "RAW" ++ toString i,
        checkNode := fun s => .ok s, applyPatchOk := fun _ => true }
      ⟨7, true, false, none, true, true, false, false, true⟩
      ⟨false, "branch"⟩).events = ["RAW70", "RAW80"] := by
  have h := claim_C6_amended_raw_mode
    { conduitCheck := true, vcsOk := true, worktreeClean := true,
      isMercurial := false, phabUrl := "u",
      revisionsById := [⟨7, "R7", "t", "s", "DP7"⟩, ⟨8, "R8", "t", "s", "DP8"⟩],
      ancestorPhids := .ok [], successorPhids := fun _ => .ok [],
      promptChoice := "Yes", revisionsByPhids := fun _ => [],
      diffs := fun p => if p = "DP7" then some ⟨70, [], 0, []⟩
        else if p = "DP8" then some ⟨80, [], 0, []⟩ else none,
      rawDiff := fun i => "RAW" ++ toString i,
      checkNode := fun s => .ok s, applyPatchOk := fun _ => true }
    ⟨7, true, false, none, true, true, false, false, true⟩
    ⟨false, "branch"⟩ ⟨7, "R7", "t", "s", "DP7"⟩ [⟨8, "R8", "t", "s", "DP8"⟩]
    (fun r => if r.diffPHID = "DP7" then ⟨70, [], 0, []⟩ else ⟨80, [], 0, []⟩)
    rfl rfl rfl rfl rfl rfl rfl (by decide)
  exact ⟨h.1, by simpa using h.2.2.2.2.2.2⟩

/-- C7: when commit-creating mode is requested (neither the raw nor the
no-commit flag) and some revision of the stack has a diff without commit
metadata, the run fails fatally with the missing-commit-information
error naming the first such revision, before any raw diff download or
commit; in no-commit mode and in raw mode the same stack (its commit
metadata may even be empty everywhere) produces no error. -/
theorem claim_C7_missing_commit_metadata :
    (∀ (env : Env) (args : Args) (cfg : Config) (l1 : List Revision)
      (bad : Revision) (l2 : List Revision) (db : Diff),
      env.conduitCheck = true → args.raw = false →
      env.vcsOk = true → env.worktreeClean = true →
      args.no_dependencies = false → args.no_parents = true →
      args.no_children = true → args.no_commit = false →
      env.revisionsById = l1 ++ bad :: l2 →
      (∀ r ∈ l1, ∃ d, env.diffs r.diffPHID = some d ∧ d.commits ≠ []) →
      env.diffs bad.diffPHID = some db → db.commits = [] →
      (patchRun env args cfg).error = some (.missingCommitInfo bad.id) ∧
      (∀ i, Event.getRawDiff i ∉ (patchRun env args cfg).events) ∧
      (∀ i b a dt, Event.commit i b a dt ∉ (patchRun env args cfg).events)) ∧
    (∀ (env : Env) (args : Args) (cfg : Config) (r0 : Revision)
      (rest : List Revision) (dOf : Revision → Diff),
      env.conduitCheck = true → args.raw = false →
      env.vcsOk = true → env.worktreeClean = true →
      args.no_dependencies = false → args.no_parents = true →
      args.no_children = true → args.no_commit = true →
      args.apply_to = some "here" →
      env.revisionsById = r0 :: rest →
      (∀ r ∈ r0 :: rest, env.diffs r.diffPHID = some (dOf r)) →
      (patchRun env args cfg).error = none) ∧
    (∀ (env : Env) (args : Args) (cfg : Config) (r0 : Revision)
      (rest : List Revision) (dOf : Revision → Diff),
      env.conduitCheck = true → args.raw = true → args.no_commit = false →
      args.no_dependencies = false → args.no_parents = true →
      args.no_children = true →
      env.revisionsById = r0 :: rest →
      (∀ r ∈ r0 :: rest, env.diffs r.diffPHID = some (dOf r)) →
      (patchRun env args cfg).error = none) := by
  refine ⟨?_, ?_, ?_⟩
  · intro env args cfg l1 bad l2 db hcc hraw hvcs hclean hnd hnp hnc2
      hnocommit hroot hgood hdb hempty
    cases l1 with
    | nil =>
      have hck : checkCommits env (bad :: l2) =
          some (.missingCommitInfo bad.id) := by
        simpa using checkCommits_fail env [] bad l2 db (by simp) hdb hempty
      simp only [List.nil_append] at hroot
      refine ⟨?_, ?_, ?_⟩ <;>
        simp [patchRun, patchMain, hcc, hraw, hvcs, hclean, hnd, hroot, hnp, hnc2,
          hnocommit, buildStack, hck]
    | cons r t =>
      have hck : checkCommits env (r :: (t ++ bad :: l2)) =
          some (.missingCommitInfo bad.id) := by
        simpa using checkCommits_fail env (r :: t) bad l2 db hgood hdb hempty
      simp only [List.cons_append] at hroot
      refine ⟨?_, ?_, ?_⟩ <;>
        simp [patchRun, patchMain, hcc, hraw, hvcs, hclean, hnd, hroot, hnp, hnc2,
          hnocommit, buildStack, hck]
  · intro env args cfg r0 rest dOf hcc hraw hvcs hclean hnd hnp hnc2
      hnocommit happ hroot hd
    have hl1 : ∀ lid, (applyLoop env args lid none (r0 :: rest)).2 = none :=
      fun lid => (applyLoop_nocommit env args lid hnocommit dOf
        (r0 :: rest) none hd).1
    have hlast : (r0 :: rest).getLast? =
        some ((r0 :: rest).getLast (by simp)) := List.getLast?_eq_getLast _ _
    simp [patchRun, patchMain, hcc, hraw, hvcs, hclean, hnd, hroot, hnp, hnc2,
      hnocommit, happ, buildStack, hlast, hl1]
  · intro env args cfg r0 rest dOf hcc hraw hnocommit hnd hnp hnc2 hroot hd
    have hl1 : ∀ lid, (applyLoop env args lid none (r0 :: rest)).2 = none :=
      fun lid => (applyLoop_raw env args lid hraw hnocommit dOf
        (r0 :: rest) none hd).1
    have hlast : (r0 :: rest).getLast? =
        some ((r0 :: rest).getLast (by simp)) := List.getLast?_eq_getLast _ _
    simp [patchRun, patchMain, hcc, hraw, hnd, hroot, hnp, hnc2, hnocommit,
      buildStack, hlast, hl1]

/-- Witness for C7: one concrete stack whose only diff has no commit
attachment: fatal in commit mode, error-free in no-commit mode and in
raw mode. -/
theorem claim_C7_witness :
    (patchRun
      { conduitCheck := true, vcsOk := true, worktreeClean := true,
        isMercurial := false, phabUrl := "u",
        revisionsById := [⟨7, "R7", "t", "s", "DP7"⟩],
        ancestorPhids := .ok [], successorPhids := fun _ => .ok [],
        promptChoice := "Yes", revisionsByPhids := fun _ => [],
        diffs := fun _ => some ⟨70, [], 0, []⟩,
        rawDiff := fun _ => "", checkNode := fun s => .ok s,
        applyPatchOk := fun _ => true }
      ⟨7, false, false, some "here", true, true, false, false, true⟩
      ⟨false, "branch"⟩).error = some (.missingCommitInfo 7) ∧
    (patchRun
      { conduitCheck := true, vcsOk := true, worktreeClean := true,
        isMercurial := false, phabUrl := "u",
        revisionsById := [⟨7, "R7", "t", "s", "DP7"⟩],
        ancestorPhids := .ok [], successorPhids := fun _ => .ok [],
        promptChoice := "Yes", revisionsByPhids := fun _ => [],
        diffs := fun _ => some ⟨70, [], 0, []⟩,
        rawDiff := fun _ => "", checkNode := fun s => .ok s,
        applyPatchOk := fun _ => true }
      ⟨7, false, true, some "here", true, true, false, false, true⟩
      ⟨false, "branch"⟩).error = none ∧
    (patchRun
      { conduitCheck := true, vcsOk := true, worktreeClean := true,
        isMercurial := false, phabUrl := "u",
        revisionsById := [⟨7, "R7", "t", "s", "DP7"⟩],
        ancestorPhids := .ok [], successorPhids := fun _ => .ok [],
        promptChoice := "Yes", revisionsByPhids := fun _ => [],
        diffs := fun _ => some ⟨70, [], 0, []⟩,
        rawDiff := fun _ => "", checkNode := fun s => .ok s,
        applyPatchOk := fun _ => true }
      ⟨7, true, false, some "here", true, true, false, false, true⟩
      ⟨false, "branch"⟩).error = none := by
  refine ⟨?_, ?_, ?_⟩
  · exact (claim_C7_missing_commit_metadata.1
      { conduitCheck := true, vcsOk := true, worktreeClean := true,
        isMercurial := false, phabUrl := "u",
        revisionsById := [⟨7, "R7", "t", "s", "DP7"⟩],
        ancestorPhids := .ok [], successorPhids := fun _ => .ok [],
        promptChoice := "Yes", revisionsByPhids := fun _ => [],
        diffs := fun _ => some ⟨70, [], 0, []⟩,
        rawDiff := fun _ => "", checkNode := fun s => .ok s,
        applyPatchOk := fun _ => true }
      ⟨7, false, false, some "here", true, true, false, false, true⟩
      ⟨false, "branch"⟩ [] ⟨7, "R7", "t", "s", "DP7"⟩ [] ⟨70, [], 0, []⟩
      rfl rfl rfl rfl rfl rfl rfl rfl rfl (by simp) rfl rfl).1
  · exact claim_C7_missing_commit_metadata.2.1
      { conduitCheck := true, vcsOk := true, worktreeClean := true,
        isMercurial := false, phabUrl := "u",
        revisionsById := [⟨7, "R7", "t", "s", "DP7"⟩],
        ancestorPhids := .ok [], successorPhids := fun _ => .ok [],
        promptChoice := "Yes", revisionsByPhids := fun _ => [],
        diffs := fun _ => some ⟨70, [], 0, []⟩,
        rawDiff := fun _ => "", checkNode := fun s => .ok s,
        applyPatchOk := fun _ => true }
      ⟨7, false, true, some "here", true, true, false, false, true⟩
      ⟨false, "branch"⟩ ⟨7, "R7", "t", "s", "DP7"⟩ [] (fun _ => ⟨70, [], 0, []⟩)
      rfl rfl rfl rfl rfl rfl rfl rfl rfl rfl (by decide)
  · exact claim_C7_missing_commit_metadata.2.2
      { conduitCheck := true, vcsOk := true, worktreeClean := true,
        isMercurial := false, phabUrl := "u",
        revisionsById := [⟨7, "R7", "t", "s", "DP7"⟩],
        ancestorPhids := .ok [], successorPhids := fun _ => .ok [],
        promptChoice := "Yes", revisionsByPhids := fun _ => [],
        diffs := fun _ => some ⟨70, [], 0, []⟩,
        rawDiff := fun _ => "", checkNode := fun s => .ok s,
        applyPatchOk := fun _ => true }
      ⟨7, true, false, some "here", true, true, false, false, true⟩
      ⟨false, "branch"⟩ ⟨7, "R7", "t", "s", "DP7"⟩ [] (fun _ => ⟨70, [], 0, []⟩)
      rfl rfl rfl rfl rfl rfl rfl (by decide)

/-- C9: in every commit-mode run, the composed commit body of each
revision of the applied stack carries, as its depends-on link, the id of
the immediately preceding revision in stack order, and no link for the
first revision (the loop threads the previous id starting from none). -/
theorem claim_C9_depends_on_links (env : Env) (args : Args) (cfg : Config)
    (r0 : Revision) (rest : List Revision) (dOf : Revision → Diff)
    (hcc : env.conduitCheck = true) (hraw : args.raw = false)
    (hvcs : env.vcsOk = true) (hclean : env.worktreeClean = true)
    (hnd : args.no_dependencies = false) (hnp : args.no_parents = true)
    (hnc2 : args.no_children = true) (hnocommit : args.no_commit = false)
    (happ : args.apply_to = some "here")
    (hroot : env.revisionsById = r0 :: rest)
    (hd : ∀ r ∈ r0 :: rest, env.diffs r.diffPHID = some (dOf r))
    (hcom : ∀ r ∈ r0 :: rest, (dOf r).commits ≠ [])
    (hok : ∀ r ∈ r0 :: rest, env.applyPatchOk r.id = true) :
    (commitBodies (patchRun env args cfg).events).length = (r0 :: rest).length ∧
    ∀ k b, (commitBodies (patchRun env args cfg).events).get? k = some b →
      b.dependsOn = if k = 0 then none
        else ((r0 :: rest).get? (k - 1)).map fun r => r.id := by
  have hl1 : ∀ lid, (applyLoop env args lid none (r0 :: rest)).2 = none :=
    fun lid =>
      (applyLoop_commit_ok env args lid hnocommit hraw dOf _ none hd hcom hok).1
  have hl3 : ∀ lid, commitBodies (applyLoop env args lid none (r0 :: rest)).1 =
      expectedBodies env.phabUrl none (r0 :: rest) :=
    fun lid =>
      (applyLoop_commit_ok env args lid hnocommit hraw dOf _ none hd hcom
        hok).2.2.1
  have hlast : (r0 :: rest).getLast? =
      some ((r0 :: rest).getLast (by simp)) := List.getLast?_eq_getLast _ _
  have hchk := checkCommits_none env (r0 :: rest)
    (fun r hr => ⟨dOf r, hd r hr, hcom r hr⟩)
  have hmain : commitBodies (patchRun env args cfg).events =
      expectedBodies env.phabUrl none (r0 :: rest) := by
    simp [patchRun, patchMain, hcc, hraw, hvcs, hclean, hnd, hroot, hnp, hnc2,
      hnocommit, happ, buildStack, hlast, hchk, hl1, hl3]
  refine ⟨by rw [hmain]; exact expectedBodies_length _ _ _, ?_⟩
  intro k b hb
  rw [hmain] at hb
  exact expectedBodies_dependsOn env.phabUrl (r0 :: rest) none k b hb

/-- Witness for C9 at a concrete two-revision stack: two bodies, and the
second body depends on the first revision's id. -/
theorem claim_C9_witness :
    (commitBodies (patchRun
      { conduitCheck := true, vcsOk := true, worktreeClean := true,
        isMercurial := false, phabUrl := "u",
        revisionsById := [⟨1, "R1", "t1", "s1", "DP1"⟩, ⟨2, "R2", "t2", "s2", "DP2"⟩],
        ancestorPhids := .ok [], successorPhids := fun _ => .ok [],
        promptChoice := "Yes", revisionsByPhids := fun _ => [],
        diffs := fun p => if p = "DP1" then some ⟨11, [], 100, [⟨"a", "a@x"⟩]⟩
          else some ⟨12, [], 200, [⟨"b", "b@x"⟩]⟩,
        rawDiff := fun _ => "", checkNode := fun s => .ok s,
        applyPatchOk := fun _ => true }
      ⟨2, false, false, some "here", true, true, false, false, true⟩
      ⟨false, "branch"⟩).events).length = 2 ∧
    ∀ b, (commitBodies (patchRun
      { conduitCheck := true, vcsOk := true, worktreeClean := true,
        isMercurial := false, phabUrl := "u",
        revisionsById := [⟨1, "R1", "t1", "s1", "DP1"⟩, ⟨2, "R2", "t2", "s2", "DP2"⟩],
        ancestorPhids := .ok [], successorPhids := fun _ => .ok [],
        promptChoice := "Yes", revisionsByPhids := fun _ => [],
        diffs := fun p => if p = "DP1" then some ⟨11, [], 100, [⟨"a", "a@x"⟩]⟩
          else some ⟨12, [], 200, [⟨"b", "b@x"⟩]⟩,
        rawDiff := fun _ => "", checkNode := fun s => .ok s,
        applyPatchOk := fun _ => true }
      ⟨2, false, false, some "here", true, true, false, false, true⟩
      ⟨false, "branch"⟩).events).get? 1 = some b → b.dependsOn = some 1 := by
  have h := claim_C9_depends_on_links
    { conduitCheck := true, vcsOk := true, worktreeClean := true,
      isMercurial := false, phabUrl := "u",
      revisionsById := [⟨1, "R1", "t1", "s1", "DP1"⟩, ⟨2, "R2", "t2", "s2", "DP2"⟩],
      ancestorPhids := .ok [], successorPhids := fun _ => .ok [],
      promptChoice := "Yes", revisionsByPhids := fun _ => [],
      diffs := fun p => if p = "DP1" then some ⟨11, [], 100, [⟨"a", "a@x"⟩]⟩
        else some ⟨12, [], 200, [⟨"b", "b@x"⟩]⟩,
      rawDiff := fun _ => "", checkNode := fun s => .ok s,
      applyPatchOk := fun _ => true }
    ⟨2, false, false, some "here", true, true, false, false, true⟩
    ⟨false, "branch"⟩ ⟨1, "R1", "t1", "s1", "DP1"⟩ [⟨2, "R2", "t2", "s2", "DP2"⟩]
    (fun r => if r.diffPHID = "DP1" then ⟨11, [], 100, [⟨"a", "a@x"⟩]⟩
      else ⟨12, [], 200, [⟨"b", "b@x"⟩]⟩)
    rfl rfl rfl rfl rfl rfl rfl rfl rfl rfl
    (by decide) (by decide) (by decide)
  exact ⟨by simpa using h.1, fun b hb => by simpa using h.2 1 b hb⟩

/-- C10: the non-interactive yes flag takes precedence over the
persisted always-accept preference: with the flag set the prompt stage
passes every discovered child through untouched, shows no prompt and
never touches the config - and no run with the flag set ever emits a
prompt or a config write or changes the preference.  Without the flag
the persisted preference is consulted: when it is off and children
exist the prompt is shown, answering Always keeps the children and
persists the preference, answering No drops the children; when it is on
the prompt is skipped and the children are kept. -/
theorem claim_C10_yes_overrides_preference :
    (∀ (args : Args) (cfg : Config) (choice : String) (rid : Nat)
      (children : List String), args.yes = true →
      promptStage args cfg choice rid children = (children, cfg, [])) ∧
    (∀ (args : Args) (cfg : Config) (rid : Nat) (children : List String),
      args.yes = false → children ≠ [] → cfg.always_full_stack = false →
      promptStage args cfg "Always" rid children =
        (children, { cfg with always_full_stack := true },
          [.promptChildren rid, .configWrite])) ∧
    (∀ (args : Args) (cfg : Config) (rid : Nat) (children : List String),
      args.yes = false → children ≠ [] → cfg.always_full_stack = false →
      promptStage args cfg "No" rid children =
        ([], cfg, [.promptChildren rid])) ∧
    (∀ (args : Args) (cfg : Config) (choice : String) (rid : Nat)
      (children : List String),
      args.yes = false → cfg.always_full_stack = true →
      promptStage args cfg choice rid children = (children, cfg, [])) ∧
    (∀ (env : Env) (args : Args) (cfg : Config), args.yes = true →
      (∀ i, Event.promptChildren i ∉ (patchRun env args cfg).events) ∧
      Event.configWrite ∉ (patchRun env args cfg).events ∧
      (patchRun env args cfg).always_full_stack = cfg.always_full_stack) := by
  refine ⟨?_, ?_, ?_, ?_, ?_⟩
  · intro args cfg choice rid children hy
    exact promptStage_yes args cfg choice rid children hy
  · intro args cfg rid children hy hne hpref
    simp [promptStage, hy, hne, hpref]
  · intro args cfg rid children hy hne hpref
    simp [promptStage, hy, hne, hpref]
  · intro args cfg choice rid children hy hpref
    simp [promptStage, hy, hpref]
  · intro env args cfg hy
    exact patchRun_yes_invariant env args cfg hy

/-- Witness for C10: with the yes flag the prompt stage ignores both the
answer and the off preference; without it, answering Always persists the
preference; and a concrete yes-flag run ends with the preference still
off. -/
theorem claim_C10_witness :
    promptStage ⟨1, false, false, none, false, false, false, false, true⟩
      ⟨false, "branch"⟩ "No" 1 ["C1"] = (["C1"], ⟨false, "branch"⟩, []) ∧
    promptStage ⟨1, false, false, none, false, false, false, false, false⟩
      ⟨false, "branch"⟩ "Always" 1 ["C1"] =
      (["C1"], ⟨true, "branch"⟩, [.promptChildren 1, .configWrite]) ∧
    (patchRun
      { conduitCheck := true, vcsOk := true, worktreeClean := true,
        isMercurial := false, phabUrl := "u",
        revisionsById := [⟨7, "R7", "t", "s", "DP7"⟩],
        ancestorPhids := .ok [], successorPhids := fun _ => .ok ["R9"],
        promptChoice := "No", revisionsByPhids := fun _ => [],
        diffs := fun _ => some ⟨70, [], 0, [⟨"a", "a@x"⟩]⟩,
        rawDiff := fun _ => "", checkNode := fun s => .ok s,
        applyPatchOk := fun _ => true }
      ⟨7, false, false, some "here", false, false, false, false, true⟩
      ⟨false, "branch"⟩).always_full_stack = false := by
  refine ⟨?_, ?_, ?_⟩
  · exact claim_C10_yes_overrides_preference.1 _ _ "No" 1 ["C1"] rfl
  · exact claim_C10_yes_overrides_preference.2.1 _ _ 1 ["C1"] rfl
      (by decide) rfl
  · exact (claim_C10_yes_overrides_preference.2.2.2.2
      { conduitCheck := true, vcsOk := true, worktreeClean := true,
        isMercurial := false, phabUrl := "u",
        revisionsById := [⟨7, "R7", "t", "s", "DP7"⟩],
        ancestorPhids := .ok [], successorPhids := fun _ => .ok ["R9"],
        promptChoice := "No", revisionsByPhids := fun _ => [],
        diffs := fun _ => some ⟨70, [], 0, [⟨"a", "a@x"⟩]⟩,
        rawDiff := fun _ => "", checkNode := fun s => .ok s,
        applyPatchOk := fun _ => true }
      ⟨7, false, false, some "here", false, false, false, false, true⟩
      ⟨false, "branch"⟩ rfl).2.2

/-- C3: in every run that requests parent resolution (the no-parents and
no-dependencies flags are off) and reaches the ancestor walk (conduit
reachable, Guard checks passed or skipped by raw mode, root found), a
NonLinear answer from the ancestor walk ends the run fatally with the
non-linear-dependencies error, before the diff information fetch and
before any raw-diff download. -/
theorem claim_C3_nonlinear_parents_fatal (env : Env) (args : Args)
    (cfg : Config) (root : Revision) (rest : List Revision)
    (hcc : env.conduitCheck = true)
    (hguard : args.raw = true ∨ (env.vcsOk = true ∧ env.worktreeClean = true))
    (hroot : env.revisionsById = root :: rest)
    (hnp : args.no_parents = false) (hnd : args.no_dependencies = false)
    (hanc : env.ancestorPhids = .error ()) :
    (patchRun env args cfg).error = some (.nonLinearParents args.revision_id) ∧
    (∀ ps, Event.getDiffs ps ∉ (patchRun env args cfg).events) ∧
    (∀ i, Event.getRawDiff i ∉ (patchRun env args cfg).events) := by
  rcases hguard with hraw | ⟨hvcs, hclean⟩
  · simp [patchRun, patchMain, hcc, hraw, hroot, hnp, hnd, hanc]
  · cases hraw : args.raw with
    | true => simp [patchRun, patchMain, hcc, hraw, hroot, hnp, hnd, hanc]
    | false => simp [patchRun, patchMain, hcc, hraw, hvcs, hclean, hroot, hnp, hnd, hanc]

/-- Witness for C3 at a concrete environment with a branching ancestry. -/
theorem claim_C3_witness :
    (patchRun
      { conduitCheck := true, vcsOk := true, worktreeClean := true,
        isMercurial := false, phabUrl := "u",
        revisionsById := [⟨7, "R7", "t", "s", "DP7"⟩],
        ancestorPhids := .error (), successorPhids := fun _ => .ok [],
        promptChoice := "Yes", revisionsByPhids := fun _ => [],
        diffs := fun _ => none, rawDiff := fun _ => "",
        checkNode := fun s => .ok s, applyPatchOk := fun _ => true }
      ⟨7, false, false, some "here", false, false, false, false, true⟩
      ⟨false, "branch"⟩).error = some (.nonLinearParents 7) :=
  (claim_C3_nonlinear_parents_fatal _ _ _ _ _ rfl (Or.inr ⟨rfl, rfl⟩) rfl rfl
    rfl rfl).1

end Review
